import Mathlib

/-!
Verification of the merge / cross-reference engine of
`generate_socks5_clash_config.py` (Chrome-Manager repository).

The Python functions `read_proxy_file` (line content handling) and
`process_data` are shallowly embedded below.  Python strings are Lean
`String`s; character-level processing (`str.strip`, `str.split`,
`int(...)`) is modelled by structurally recursive functions on `List Char`
so that every definition evaluates inside the kernel.  Python dictionaries
are modelled as association lists in insertion order, with `d[k] = v`
updating the value in place when the key is present and appending the
binding otherwise, exactly as CPython dicts behave observably.  YAML/JSON
values occurring in the base configuration are modelled by the inductive
type `YVal`.
-/

namespace ClashGen

/-- ASCII whitespace recognised by the model of Python `str.strip()`. -/
def isPyWs (c : Char) : Bool := c = ' ' || c = '\t' || c = '\n' || c = '\r'

/-- Model of Python `str.strip()` on the character list of a string. -/
def trimChars (l : List Char) : List Char :=
  ((l.dropWhile isPyWs).reverse.dropWhile isPyWs).reverse

/-- Model of Python `s.split(':')` (all occurrences): returns the list of
colon-free segments; the empty input yields one empty segment, as in
Python where the empty string splits to a singleton list of the empty
string. -/
def splitChars : List Char → List (List Char)
  | [] => [[]]
  | c :: rest =>
    let r := splitChars rest
    if c = ':' then [] :: r
    else
      match r with
      | h :: t => (c :: h) :: t
      | [] => [[c]]

/-- Model of Python `s.split(':', 1)` when a colon is present: the segment
before the first colon and everything after it. -/
def splitOnceChars : List Char → List Char × List Char
  | [] => ([], [])
  | c :: rest =>
    if c = ':' then ([], rest)
    else
      let p := splitOnceChars rest
      (c :: p.1, p.2)

/-- Model of Python `':' in s`. -/
def hasColon (l : List Char) : Bool := l.any (fun c => c = ':')

/-- Numeric value of an ASCII digit character. -/
def digitVal (c : Char) : Nat := c.toNat - 48

/-- Digit-run tail of the model of Python `int(...)`: after the first digit,
Python 3 accepts further digits with single underscores strictly between
digits. -/
def pyDigitsAux : List Char → Nat → Option Nat
  | [], acc => some acc
  | c :: rest, acc =>
    if c = '_' then
      match rest with
      | [] => none
      | c2 :: rest2 =>
        if c2.isDigit then pyDigitsAux rest2 (acc * 10 + digitVal c2) else none
    else if c.isDigit then pyDigitsAux rest (acc * 10 + digitVal c)
    else none

/-- Digit run of the model of Python `int(...)`: nonempty, starting with a
digit. -/
def pyDigits : List Char → Option Nat
  | [] => none
  | c :: rest => if c.isDigit then pyDigitsAux rest (digitVal c) else none

/-- Model of Python `int(s)` on ASCII input: surrounding whitespace is
stripped, an optional single sign precedes a nonempty digit run (with
single underscores allowed between digits); `none` models the
`ValueError` raised otherwise. -/
def pyInt (s : String) : Option Int :=
  match trimChars s.data with
  | '+' :: rest => (pyDigits rest).map (fun n => (n : Int))
  | '-' :: rest => (pyDigits rest).map (fun n => -(n : Int))
  | l => (pyDigits l).map (fun n => (n : Int))

/-- Little-endian decimal digits of `n`, computed with explicit fuel so that
the definition is structurally recursive and kernel-evaluable. -/
def digitsAux : Nat → Nat → List Nat
  | _, 0 => []
  | 0, _ + 1 => []
  | fuel + 1, n + 1 => (n + 1) % 10 :: digitsAux fuel ((n + 1) / 10)

/-- Little-endian decimal digits of `n` (empty for 0). -/
def natDigits (n : Nat) : List Nat := digitsAux n n

/-- Decimal rendering of a natural number, modelling Python `str(n)` /
`f-string` formatting of a nonnegative integer. -/
def natStr (n : Nat) : String :=
  if n = 0 then "0" else ⟨((natDigits n).map Nat.digitChar).reverse⟩

/-- Model of the Python format specification `02d` on a nonnegative value:
pad the decimal rendering with leading zeros to a minimum width of 2. -/
def pad2 (n : Nat) : String :=
  if (natStr n).data.length < 2 then "0" ++ natStr n else natStr n

/-- Name of the generated proxy at 0-based index `i` in the proxy list:
`socks_out_` followed by the 1-based index zero-padded to two digits
(source line 108). -/
def proxyName (i : Nat) : String := "socks_out_" ++ pad2 (i + 1)

/-- Lookup in a Python-dict model (association list in insertion order);
models `d.get(k)`. -/
def dictGet {β : Type} (k : String) : List (String × β) → Option β
  | [] => none
  | p :: rest => if p.1 = k then some p.2 else dictGet k rest

/-- Update in a Python-dict model; models `d[k] = v`: replaces the value of
an existing key in place, otherwise appends the new binding at the end. -/
def dictSet {β : Type} (k : String) (v : β) : List (String × β) → List (String × β)
  | [] => [(k, v)]
  | p :: rest => if p.1 = k then (k, v) :: rest else p :: dictSet k v rest

/-- One record of the proxy list: the four colon-separated fields of a valid
line plus its 1-based physical line number (source lines 59-65). -/
structure ProxyRecord where
  ip : String
  port : String
  user : String
  pass : String
  line_num : Nat
deriving DecidableEq, Repr

/-- One value of the mapping table, with the two fields `process_data`
reads; `none` models an absent key, `some` the stored string. -/
structure MapEntry where
  socks_local : Option String
  socks_remote : Option String
deriving DecidableEq, Repr

/-- The distinct error exits of `process_data`, carrying exactly the data
interpolated into the corresponding Python error message. -/
inductive MergeError where
  | portFormat (line_num : Nat) (portStr : String)
  | localInvalid (key : String) (socksLocal : Option String)
  | localPortInvalid (key : String) (portStr : String)
  | remoteMissing (key : String)
  | unresolvedRemote (key : String) (remote : String)
deriving DecidableEq, Repr

/-- The error kinds the specification groups under `MappingFormatError`:
all key-level validation failures of a mapping entry. -/
def MergeError.isMappingFormat : MergeError → Bool
  | .localInvalid _ _ => true
  | .localPortInvalid _ _ => true
  | .remoteMissing _ => true
  | _ => false

/-- The mapping key named by a mapping-entry error, if any. -/
def MergeError.key? : MergeError → Option String
  | .portFormat _ _ => none
  | .localInvalid k _ => some k
  | .localPortInvalid k _ => some k
  | .remoteMissing k => some k
  | .unresolvedRemote k _ => some k

/-- The dictionary built for each proxy record (source lines 116-126). -/
structure GeneratedProxy where
  name : String
  type : String
  server : String
  port : Int
  username : String
  password : String
  tls : Bool
  skipCertVerify : Bool
  udp : Bool
deriving DecidableEq, Repr

/-- The dictionary built for each mapping entry's listener
(source lines 173-178). -/
structure GeneratedListener where
  name : String
  type : String
  port : Int
  proxy : String
deriving DecidableEq, Repr

/-- The relay proxy-group dictionary built for each mapping entry
(source lines 203-210). -/
structure GeneratedGroup where
  name : String
  type : String
  proxies : List String
deriving DecidableEq, Repr

/-- YAML/JSON values of the base configuration. -/
inductive YVal where
  | str (s : String)
  | int (n : Int)
  | bool (b : Bool)
  | null
  | list (items : List YVal)
  | dict (fields : List (String × YVal))

/-- Whether a value is a list; models `isinstance(v, list)`. -/
def YVal.isList : YVal → Bool
  | .list _ => true
  | _ => false

/-- The generated proxy as the YAML dictionary literal of source
lines 116-126, fields in source order. -/
def GeneratedProxy.toYVal (p : GeneratedProxy) : YVal :=
  .dict [("name", .str p.name), ("type", .str p.type), ("server", .str p.server),
         ("port", .int p.port), ("username", .str p.username),
         ("password", .str p.password), ("tls", .bool p.tls),
         ("skip-cert-verify", .bool p.skipCertVerify), ("udp", .bool p.udp)]

/-- The generated listener as the YAML dictionary literal of source
lines 173-178. -/
def GeneratedListener.toYVal (l : GeneratedListener) : YVal :=
  .dict [("name", .str l.name), ("type", .str l.type), ("port", .int l.port),
         ("proxy", .str l.proxy)]

/-- The generated relay group as the YAML dictionary literal of source
lines 203-210. -/
def GeneratedGroup.toYVal (g : GeneratedGroup) : YVal :=
  .dict [("name", .str g.name), ("type", .str g.type),
         ("proxies", .list (g.proxies.map .str))]

/-- Per-line step of `read_proxy_file` (source lines 53-67): strip the line;
skip it when blank or a `#` comment; accept it when it splits on `:` into
exactly four fields, producing a record tagged with the given 1-based line
number; skip it (after a logged warning) otherwise. -/
def parseProxyLine (lineNum : Nat) (raw : String) : Option ProxyRecord :=
  let line := trimChars raw.data
  if line.isEmpty then none
  else if line.head? = some '#' then none
  else
    match splitChars line with
    | [a, b, c, d] => some ⟨⟨a⟩, ⟨b⟩, ⟨c⟩, ⟨d⟩, lineNum⟩
    | _ => none

/-- Loop of `read_proxy_file` over the enumerated lines, `i` being the
0-based index of the next line. -/
def readProxyAux : Nat → List String → List ProxyRecord
  | _, [] => []
  | i, raw :: rest =>
    match parseProxyLine (i + 1) raw with
    | some r => r :: readProxyAux (i + 1) rest
    | none => readProxyAux (i + 1) rest

/-- Line-content part of `read_proxy_file` (source lines 44-72): the input
is the list of physical lines of the file; file-system failures are out of
scope of this model. -/
def read_proxy_file (lines : List String) : List ProxyRecord := readProxyAux 0 lines

/-- The proxy dictionary built at 0-based index `i` for record `r` whose
port parsed to `p` (source lines 108-126). -/
def mkGeneratedProxy (i : Nat) (r : ProxyRecord) (p : Int) : GeneratedProxy :=
  { name := proxyName i, type := "socks5", server := r.ip, port := p,
    username := r.user, password := r.pass, tls := false,
    skipCertVerify := true, udp := true }

/-- Step-1 loop of `process_data` (source lines 107-131): builds the
generated proxies in file order and the reverse lookup from record IP to
generated proxy name (later records overwrite earlier ones), aborting at
the first record whose port does not parse as an integer. -/
def genProxiesAux : Nat → List ProxyRecord → List (String × String) →
    Except MergeError (List GeneratedProxy × List (String × String))
  | _, [], m => .ok ([], m)
  | i, r :: rest, m =>
    match pyInt r.port with
    | none => .error (.portFormat r.line_num r.port)
    | some p =>
      match genProxiesAux (i + 1) rest (dictSet r.ip (proxyName i) m) with
      | .error e => .error e
      | .ok (gs, m2) => .ok (mkGeneratedProxy i r p :: gs, m2)

/-- Step 1 of `process_data`, started with index 0 and an empty reverse
lookup. -/
def genProxies (pl : List ProxyRecord) :
    Except MergeError (List GeneratedProxy × List (String × String)) :=
  genProxiesAux 0 pl []

/-- Sort key used by `sorted(mapping_data.keys(), key=lambda k: int(k))`;
only consulted when every key parses. -/
def keyIntVal (k : String) : Int := (pyInt k).getD 0

/-- Whether every mapping key parses as an integer, i.e. whether the
`sorted(..., key=int)` call of source line 149 succeeds. -/
def allKeysInt (keys : List String) : Bool := keys.all (fun k => (pyInt k).isSome)

/-- Key iteration order of `process_data` (source lines 147-152): keys
sorted by integer value when every key parses as an integer, otherwise
keys in lexicographic string order.  A stable insertion sort models
Python's stable `sorted`. -/
def sortKeysFn (keys : List String) : List String :=
  if allKeysInt keys then
    List.insertionSort (fun a b => keyIntVal a ≤ keyIntVal b) keys
  else
    List.insertionSort (fun a b => a ≤ b) keys

/-- Loop body of `process_data` for one mapping entry (source
lines 154-212): validate `socks_local`, build the listener, validate
`socks_remote`, resolve the target proxy name (full string first, then the
prefix before the first colon), and build the relay group. -/
def processEntry (ipMap : List (String × String)) (key : String) (e : MapEntry) :
    Except MergeError (GeneratedListener × GeneratedGroup) :=
  match e.socks_local with
  | none => .error (.localInvalid key none)
  | some s =>
    if s = "" || !(hasColon s.data) then .error (.localInvalid key (some s))
    else
      let portStr : String := ⟨(splitOnceChars s.data).2⟩
      match pyInt portStr with
      | none => .error (.localPortInvalid key portStr)
      | some lport =>
        let listener : GeneratedListener :=
          { name := "socks_" ++ key, type := "mixed", port := lport,
            proxy := "socks_relay_" ++ key }
        match e.socks_remote with
        | none => .error (.remoteMissing key)
        | some r =>
          if r = "" then .error (.remoteMissing key)
          else
            match dictGet r ipMap with
            | some target =>
              .ok (listener, { name := "socks_relay_" ++ key, type := "relay",
                               proxies := ["Switch-Proxy", target] })
            | none =>
              if hasColon r.data then
                match dictGet (⟨(splitOnceChars r.data).1⟩ : String) ipMap with
                | some target =>
                  .ok (listener, { name := "socks_relay_" ++ key, type := "relay",
                                   proxies := ["Switch-Proxy", target] })
                | none => .error (.unresolvedRemote key r)
              else .error (.unresolvedRemote key r)

/-- Loop of `process_data` over the mapping entries in iteration order:
collects the generated listeners and relay groups in that order, aborting
at the first invalid entry. -/
def processKeys (ipMap : List (String × String)) :
    List (String × MapEntry) → Except MergeError (List GeneratedListener × List GeneratedGroup)
  | [] => .ok ([], [])
  | (k, e) :: rest =>
    match processEntry ipMap k e with
    | .error err => .error err
    | .ok (l, g) =>
      match processKeys ipMap rest with
      | .error err => .error err
      | .ok (ls, gs) => .ok (l :: ls, g :: gs)

/-- The `(key, entry)` sequence `process_data` iterates: keys in the order
of `sortKeysFn`, each paired with its value in the mapping dictionary.
For a Python dictionary every sorted key is present, so the lookup never
fails and the `filterMap` keeps every key. -/
def mappingEntriesInOrder (m : List (String × MapEntry)) : List (String × MapEntry) :=
  (sortKeysFn (m.map Prod.fst)).filterMap (fun k => (dictGet k m).map (fun e => (k, e)))

/-- The combined effect on one field of `final_config` of source
lines 135-138 / 219-222: if the field is a list, extend it with the new
entries; otherwise replace it (with a logged warning) by a fresh list
holding exactly the new entries. -/
def extendListField (k : String) (new : List YVal) (d : List (String × YVal)) :
    List (String × YVal) :=
  match dictGet k d with
  | some (.list old) => dictSet k (.list (old ++ new)) d
  | _ => dictSet k (.list new) d

/-- The merge `process_data` (source lines 98-226), as the value of
`final_config` it returns: step 1 generates the proxies and the reverse
IP lookup; the mapping entries are processed in sorted key order; on
success the base configuration's `proxies` list is extended with the
generated proxies, its `listeners` entry is replaced wholesale by the
generated listeners, and its `proxy-groups` list is extended with the
generated relay groups. -/
def process_data (mapping : List (String × MapEntry)) (proxy_list : List ProxyRecord)
    (base : List (String × YVal)) :
    Except MergeError (List (String × YVal)) :=
  match genProxies proxy_list with
  | .error e => .error e
  | .ok (gs, ipMap) =>
    match processKeys ipMap (mappingEntriesInOrder mapping) with
    | .error e => .error e
    | .ok (ls, grs) =>
      let c1 := extendListField "proxies" (gs.map GeneratedProxy.toYVal) base
      let c2 := dictSet "listeners" (.list (ls.map GeneratedListener.toYVal)) c1
      let c3 := extendListField "proxy-groups" (grs.map GeneratedGroup.toYVal) c2
      .ok c3

/-- In-place effect of `list.extend` on one field of the caller's base
configuration dictionary: when the field holds a list object (shared with
`final_config` through the shallow copy) that list grows; otherwise the
base configuration is untouched, because `final_config[k] = []` rebinds a
key of the fresh copied dictionary only. -/
def extendIfList (k : String) (new : List YVal) (d : List (String × YVal)) :
    List (String × YVal) :=
  match dictGet k d with
  | some (.list old) => dictSet k (.list (old ++ new)) d
  | _ => d

/-- The state of the `base_clash_config` argument after `process_data`
returns.  Source line 101 takes a shallow `dict.copy()`, so the list
objects stored under `proxies` and `proxy-groups` are shared between
`final_config` and the caller's base configuration; the in-place
`list.extend` of source line 138 (resp. 222) therefore mutates the base
configuration whenever that field holds a list.  The `proxies` extension
happens before the mapping loop, so it is visible even when the merge
later aborts inside that loop; the `proxy-groups` extension happens only
after the loop succeeds, and the `listeners` assignment of line 215
rebinds a key of the fresh copied dictionary only.  (The model treats the
base configuration as alias-free: no list object reachable from it occurs
twice.) -/
def process_data_base_after (mapping : List (String × MapEntry))
    (proxy_list : List ProxyRecord) (base : List (String × YVal)) :
    List (String × YVal) :=
  match genProxies proxy_list with
  | .error _ => base
  | .ok (gs, ipMap) =>
    let b1 := extendIfList "proxies" (gs.map GeneratedProxy.toYVal) base
    match processKeys ipMap (mappingEntriesInOrder mapping) with
    | .error _ => b1
    | .ok (_, grs) => extendIfList "proxy-groups" (grs.map GeneratedGroup.toYVal) b1

/-! ### Association-list (Python dict) lemmas -/

theorem string_mk_inj {s t : String} (h : s.data = t.data) : s = t := by
  cases s; cases t; exact congrArg String.mk h

theorem dictGet_dictSet_self {β : Type} (k : String) (v : β) (d : List (String × β)) :
    dictGet k (dictSet k v d) = some v := by
  induction d with
  | nil => simp [dictGet, dictSet]
  | cons p rest ih =>
    by_cases h : p.1 = k
    · simp [dictSet, dictGet, h]
    · simp [dictSet, dictGet, h, ih]

theorem dictGet_dictSet_ne {β : Type} {k k' : String} (h : k' ≠ k) (v : β)
    (d : List (String × β)) : dictGet k (dictSet k' v d) = dictGet k d := by
  induction d with
  | nil => simp [dictGet, dictSet, h]
  | cons p rest ih =>
    by_cases hp : p.1 = k'
    · have hpk : ¬ p.1 = k := by rw [hp]; exact h
      simp [dictSet, dictGet, hp, hpk, h]
    · by_cases hk : p.1 = k
      · simp [dictSet, dictGet, hp, hk, Ne.symm h]
      · simp [dictSet, dictGet, hp, hk, ih]

theorem dictGet_isSome_of_mem {β : Type} {k : String} {d : List (String × β)}
    (h : k ∈ d.map Prod.fst) : (dictGet k d).isSome := by
  induction d with
  | nil => simp at h
  | cons p rest ih =>
    by_cases hp : p.1 = k
    · simp [dictGet, hp]
    · simp only [List.map_cons, List.mem_cons] at h
      rcases h with h | h

      · exact absurd h.symm hp
      · simp [dictGet, hp, ih h]

/-! ### Decimal rendering: correctness and injectivity -/

/-- Value of a little-endian digit list. -/
def ofDigitsLE : List Nat → Nat
  | [] => 0
  | d :: ds => d + 10 * ofDigitsLE ds

theorem digitsAux_zero (fuel : Nat) : digitsAux fuel 0 = [] := by
  cases fuel <;> rfl

theorem ofDigitsLE_digitsAux : ∀ fuel n, n ≤ fuel → ofDigitsLE (digitsAux fuel n) = n := by
  intro fuel
  induction fuel with
  | zero =>
    intro n hn
    interval_cases n
    simp [digitsAux, ofDigitsLE]
  | succ fuel ih =>
    intro n hn
    match n with
    | 0 => simp [digitsAux, ofDigitsLE]
    | n + 1 =>
      have h1 : (n + 1) / 10 < n + 1 := Nat.div_lt_self (Nat.succ_pos n) (by norm_num)
      have h2 : (n + 1) / 10 ≤ fuel := Nat.lt_succ_iff.mp (lt_of_lt_of_le h1 hn)
      simp only [digitsAux, ofDigitsLE, ih _ h2]
      omega

theorem ofDigitsLE_natDigits (n : Nat) : ofDigitsLE (natDigits n) = n :=
  ofDigitsLE_digitsAux n n le_rfl

theorem digitsAux_lt10 : ∀ fuel n d, d ∈ digitsAux fuel n → d < 10 := by
  intro fuel
  induction fuel with
  | zero =>
    intro n d hd
    cases n <;> simp [digitsAux] at hd
  | succ fuel ih =>
    intro n d hd
    match n with
    | 0 => simp [digitsAux] at hd
    | n + 1 =>
      simp only [digitsAux, List.mem_cons] at hd
      rcases hd with h | h
      · subst h; exact Nat.mod_lt _ (by norm_num)
      · exact ih _ _ h

theorem digitsAux_ne_nil : ∀ fuel n, 0 < n → n ≤ fuel → digitsAux fuel n ≠ [] := by
  intro fuel n hn hf
  match fuel, n with
  | 0, n => omega
  | fuel + 1, 0 => omega
  | fuel + 1, n + 1 => simp [digitsAux]

theorem digitsAux_getLast_pos :
    ∀ fuel n, n ≤ fuel → ∀ d, (digitsAux fuel n).getLast? = some d → 0 < d := by
  intro fuel
  induction fuel with
  | zero =>
    intro n hn d hd
    interval_cases n
    simp [digitsAux] at hd
  | succ fuel ih =>
    intro n hn d hd
    match n with
    | 0 => simp [digitsAux] at hd
    | n + 1 =>
      have h1 : (n + 1) / 10 < n + 1 := Nat.div_lt_self (Nat.succ_pos n) (by norm_num)
      have h2 : (n + 1) / 10 ≤ fuel := Nat.lt_succ_iff.mp (lt_of_lt_of_le h1 hn)
      by_cases hq : (n + 1) / 10 = 0
      · have hlt : n + 1 < 10 := (Nat.div_eq_zero_iff (by norm_num)).mp hq
        rw [digitsAux] at hd
        rw [hq, digitsAux_zero] at hd
        simp only [List.getLast?_singleton, Option.some.injEq] at hd
        subst hd
        rw [Nat.mod_eq_of_lt hlt]
        exact Nat.succ_pos n
      · have hpos : 0 < (n + 1) / 10 := Nat.pos_of_ne_zero hq
        have hne : digitsAux fuel ((n + 1) / 10) ≠ [] := digitsAux_ne_nil fuel _ hpos h2
        rw [digitsAux] at hd
        match hcons : digitsAux fuel ((n + 1) / 10), hne with
        | c :: t, _ =>
          rw [hcons, List.getLast?_cons_cons] at hd
          exact ih _ h2 d (by rw [hcons]; exact hd)

theorem digitChar_inj_lt : ∀ a < 10, ∀ b < 10, Nat.digitChar a = Nat.digitChar b → a = b := by
  decide

theorem digitChar_ne_zero_of_pos : ∀ d < 10, 0 < d → Nat.digitChar d ≠ '0' := by
  decide

theorem map_digitChar_inj :
    ∀ l1 l2 : List Nat, (∀ d ∈ l1, d < 10) → (∀ d ∈ l2, d < 10) →
      l1.map Nat.digitChar = l2.map Nat.digitChar → l1 = l2 := by
  intro l1
  induction l1 with
  | nil =>
    intro l2 _ _ h
    cases l2 with
    | nil => rfl
    | cons b t => simp at h
  | cons a t1 ih =>
    intro l2 h1 h2 h
    cases l2 with
    | nil => simp at h
    | cons b t2 =>
      simp only [List.map_cons, List.cons.injEq] at h
      have ha : a < 10 := h1 a (List.mem_cons_self a t1)
      have hb : b < 10 := h2 b (List.mem_cons_self b t2)
      have hab : a = b := digitChar_inj_lt a ha b hb h.1
      have ht : t1 = t2 :=
        ih t2 (fun d hd => h1 d (List.mem_cons_of_mem _ hd))
          (fun d hd => h2 d (List.mem_cons_of_mem _ hd)) h.2
      rw [hab, ht]

theorem natDigits_ne_nil {n : Nat} (hn : 0 < n) : natDigits n ≠ [] :=
  digitsAux_ne_nil n n hn le_rfl

theorem natStr_inj : ∀ a b, natStr a = natStr b → a = b := by
  have key : ∀ b, 0 < b → "0" ≠ natStr b := by
    intro b hb h
    have hd := congrArg String.data h
    rw [natStr, if_neg (Nat.pos_iff_ne_zero.mp hb)] at hd
    have hrev := congrArg List.reverse hd
    simp only [List.reverse_reverse] at hrev
    match hdig : natDigits b, hrev with
    | [], hrev => exact natDigits_ne_nil hb hdig
    | [d], hrev =>
      simp only [List.map_cons, List.map_nil] at hrev
      have hmem : d ∈ natDigits b := by rw [hdig]; exact List.mem_singleton_self d
      have hd10 : d < 10 := digitsAux_lt10 b b d hmem
      have hchar : Nat.digitChar d = '0' := by simpa using hrev.symm
      have hd0 : d = 0 := digitChar_inj_lt d hd10 0 (by norm_num) hchar
      have hval := ofDigitsLE_natDigits b
      rw [hdig, hd0] at hval
      simp [ofDigitsLE] at hval
      omega
    | d1 :: d2 :: t, hrev =>
      simp at hrev
  intro a b h
  by_cases ha : a = 0 <;> by_cases hb : b = 0
  · rw [ha, hb]
  · exfalso
    rw [ha] at h
    exact key b (Nat.pos_of_ne_zero hb) (by rw [← h]; rfl)
  · exfalso
    rw [hb] at h
    exact key a (Nat.pos_of_ne_zero ha) (by rw [h]; rfl)
  · have hd := congrArg String.data h
    rw [natStr, if_neg ha, natStr, if_neg hb] at hd
    have hrev := congrArg List.reverse hd
    simp only [List.reverse_reverse] at hrev
    have hdig : natDigits a = natDigits b :=
      map_digitChar_inj _ _ (fun d hd => digitsAux_lt10 a a d hd)
        (fun d hd => digitsAux_lt10 b b d hd) hrev
    have := congrArg ofDigitsLE hdig
    rwa [ofDigitsLE_natDigits, ofDigitsLE_natDigits] at this

theorem natStr_data_ne_nil (n : Nat) : (natStr n).data ≠ [] := by
  by_cases hn : n = 0
  · rw [hn]; simp [natStr]
  · rw [natStr, if_neg hn]
    simp only [ne_eq, List.reverse_eq_nil_iff, List.map_eq_nil_iff]
    exact natDigits_ne_nil (Nat.pos_of_ne_zero hn)

theorem natStr_head_ne_zero {n : Nat} (hn : 0 < n) : (natStr n).data.head? ≠ some '0' := by
  rw [natStr, if_neg (Nat.pos_iff_ne_zero.mp hn)]
  show (((natDigits n).map Nat.digitChar).reverse).head? ≠ some '0'
  rw [List.head?_reverse, List.getLast?_map]
  intro hcontra
  match hlast : (natDigits n).getLast?, hcontra with
  | some d, hcontra =>
    simp only [Option.map_some', Option.some.injEq] at hcontra
    have hpos : 0 < d := digitsAux_getLast_pos n n le_rfl d hlast
    have hlt : d < 10 := digitsAux_lt10 n n d (List.mem_of_getLast?_eq_some hlast)
    exact digitChar_ne_zero_of_pos d hlt hpos hcontra

theorem pad2_inj : ∀ a b, pad2 a = pad2 b → a = b := by
  have mixed : ∀ a b, (natStr a).data.length < 2 → ¬ (natStr b).data.length < 2 →
      "0" ++ natStr a ≠ natStr b := by
    intro a b _ hb2 h
    have hbz : b ≠ 0 := by
      intro hb0
      rw [hb0] at hb2
      exact hb2 (by rw [natStr]; simp)
    have hd := congrArg String.data h
    rw [String.data_append] at hd
    have : (natStr b).data.head? = some '0' := by
      rw [← hd]
      rfl
    exact natStr_head_ne_zero (Nat.pos_of_ne_zero hbz) this
  intro a b h
  rw [pad2, pad2] at h
  by_cases h1 : (natStr a).data.length < 2 <;> by_cases h2 : (natStr b).data.length < 2
  · rw [if_pos h1, if_pos h2] at h
    have hd := congrArg String.data h
    rw [String.data_append, String.data_append] at hd
    have := List.append_cancel_left hd
    exact natStr_inj a b (string_mk_inj this)
  · rw [if_pos h1, if_neg h2] at h
    exact absurd h (mixed a b h1 h2)
  · rw [if_neg h1, if_pos h2] at h
    exact absurd h.symm (mixed b a h2 h1)
  · rw [if_neg h1, if_neg h2] at h
    exact natStr_inj a b h

theorem proxyName_inj : ∀ i j, proxyName i = proxyName j → i = j := by
  intro i j h
  rw [proxyName, proxyName] at h
  have hd := congrArg String.data h
  rw [String.data_append, String.data_append] at hd
  have := List.append_cancel_left hd
  have := pad2_inj (i + 1) (j + 1) (string_mk_inj this)
  omega

/-! ### Proxy-list parser lemmas -/

theorem parseProxyLine_eq_some_iff (n : Nat) (raw : String) (r : ProxyRecord) :
    parseProxyLine n raw = some r ↔
      trimChars raw.data ≠ [] ∧ (trimChars raw.data).head? ≠ some '#' ∧
      splitChars (trimChars raw.data) = [r.ip.data, r.port.data, r.user.data, r.pass.data] ∧
      r.line_num = n := by
  constructor
  · intro h
    simp only [parseProxyLine] at h
    by_cases h1 : (trimChars raw.data).isEmpty = true
    · rw [if_pos h1] at h
      exact absurd h (by simp)
    · rw [if_neg h1] at h
      by_cases h2 : (trimChars raw.data).head? = some '#'
      · rw [if_pos h2] at h
        exact absurd h (by simp)
      · rw [if_neg h2] at h
        have h1' : trimChars raw.data ≠ [] := fun hc => h1 (by rw [hc]; rfl)
        split at h
        · next a b c d hsplit =>
          obtain rfl := Option.some_inj.mp h
          exact ⟨h1', h2, hsplit, rfl⟩
        · exact absurd h (by simp)
  · rintro ⟨hne, hhash, hsplit, hn⟩
    cases r with
    | mk ip port user pw ln =>
      simp only at hsplit hn
      subst hn
      have hempty : (trimChars raw.data).isEmpty = false := by
        cases hc : trimChars raw.data with
        | nil => exact absurd hc hne
        | cons c t => rfl
      simp only [parseProxyLine, hempty, Bool.false_eq_true, if_false, if_neg hhash, hsplit]

theorem parseProxyLine_line_num {n : Nat} {raw : String} {r : ProxyRecord}
    (h : parseProxyLine n raw = some r) : r.line_num = n :=
  ((parseProxyLine_eq_some_iff n raw r).mp h).2.2.2

theorem readProxyAux_mem :
    ∀ (lines : List String) (i : Nat) (r : ProxyRecord), r ∈ readProxyAux i lines →
      i + 1 ≤ r.line_num ∧ ∃ raw, lines.get? (r.line_num - 1 - i) = some raw ∧
        parseProxyLine r.line_num raw = some r := by
  intro lines
  induction lines with
  | nil => intro i r hr; simp [readProxyAux] at hr
  | cons raw rest ih =>
    intro i r hr
    rw [readProxyAux] at hr
    cases hp : parseProxyLine (i + 1) raw with
    | some r0 =>
      rw [hp] at hr
      have hr2 : r ∈ r0 :: readProxyAux (i + 1) rest := hr
      rcases List.mem_cons.mp hr2 with rfl | hr3
      · have hn : r.line_num = i + 1 := parseProxyLine_line_num hp
        refine ⟨le_of_eq hn.symm, raw, ?_, by rw [hn]; exact hp⟩
        have h0 : r.line_num - 1 - i = 0 := by omega
        rw [h0]
        rfl
      · obtain ⟨hle, raw', hget, hparse⟩ := ih (i + 1) r hr3
        refine ⟨by omega, raw', ?_, hparse⟩
        have heq : r.line_num - 1 - i = (r.line_num - 1 - (i + 1)) + 1 := by omega
        rw [heq, List.get?_cons_succ]
        exact hget
    | none =>
      rw [hp] at hr
      have hr2 : r ∈ readProxyAux (i + 1) rest := hr
      obtain ⟨hle, raw', hget, hparse⟩ := ih (i + 1) r hr2
      refine ⟨by omega, raw', ?_, hparse⟩
      have heq : r.line_num - 1 - i = (r.line_num - 1 - (i + 1)) + 1 := by omega
      rw [heq, List.get?_cons_succ]
      exact hget

theorem readProxyAux_mem_intro :
    ∀ (lines : List String) (i j : Nat) (raw : String) (r : ProxyRecord),
      lines.get? j = some raw → parseProxyLine (i + j + 1) raw = some r →
      r ∈ readProxyAux i lines := by
  intro lines
  induction lines with
  | nil => intro i j raw r h _; simp at h
  | cons raw0 rest ih =>
    intro i j raw r hget hparse
    match j with
    | 0 =>
      have hraw : raw0 = raw := Option.some_inj.mp hget
      subst hraw
      simp only [Nat.add_zero] at hparse
      rw [readProxyAux, hparse]
      exact List.mem_cons_self r _
    | j + 1 =>
      have hget' : rest.get? j = some raw := hget
      have hparse' : parseProxyLine ((i + 1) + j + 1) raw = some r := by
        have harith : (i + 1) + j + 1 = i + (j + 1) + 1 := by omega
        rw [harith]
        exact hparse
      have hmem := ih (i + 1) j raw r hget' hparse'
      rw [readProxyAux]
      cases hp0 : parseProxyLine (i + 1) raw0 with
      | some r0 => exact List.mem_cons_of_mem r0 hmem
      | none => exact hmem

theorem readProxyAux_pairwise (lines : List String) :
    ∀ i, (readProxyAux i lines).Pairwise (fun a b => a.line_num < b.line_num) := by
  induction lines with
  | nil => intro i; simp [readProxyAux]
  | cons raw rest ih =>
    intro i
    rw [readProxyAux]
    cases hp : parseProxyLine (i + 1) raw with
    | some r0 =>
      refine List.Pairwise.cons ?_ (ih (i + 1))
      intro b hb
      have hle := (readProxyAux_mem rest (i + 1) b hb).1
      have hr0 : r0.line_num = i + 1 := parseProxyLine_line_num hp
      omega
    | none => exact ih (i + 1)

theorem readProxyAux_nil_of_all_invalid :
    ∀ (lines : List String) (i : Nat),
      (∀ j raw, lines.get? j = some raw → parseProxyLine (i + j + 1) raw = none) →
      readProxyAux i lines = [] := by
  intro lines
  induction lines with
  | nil => intro i _; rfl
  | cons raw rest ih =>
    intro i hall
    have h0 : parseProxyLine (i + 1) raw = none := by
      have := hall 0 raw rfl
      simpa using this
    rw [readProxyAux, h0]
    exact ih (i + 1) (fun j raw' hj => by
      have := hall (j + 1) raw' hj
      have harith : i + (j + 1) + 1 = (i + 1) + j + 1 := by omega
      rwa [harith] at this)

/-- C8: for every proxy file content the proxy-list parser never fails on
line content (it is a total function into a record list): records are
exactly the stripped lines that split on `:` into four fields, tagged with
their 1-based physical line number; blank lines, `#` lines and lines with
a field count other than four yield no record; records come back in file
order (strictly increasing line numbers); and a file with zero valid lines
returns the empty list rather than an error. -/
theorem claim_C8 (lines : List String) :
    (∀ r ∈ read_proxy_file lines, 1 ≤ r.line_num ∧
        ∃ raw, lines.get? (r.line_num - 1) = some raw ∧
          trimChars raw.data ≠ [] ∧ (trimChars raw.data).head? ≠ some '#' ∧
          splitChars (trimChars raw.data) = [r.ip.data, r.port.data, r.user.data, r.pass.data]) ∧
    (∀ j raw a b c d, lines.get? j = some raw →
        trimChars raw.data ≠ [] → (trimChars raw.data).head? ≠ some '#' →
        splitChars (trimChars raw.data) = [a, b, c, d] →
        (⟨⟨a⟩, ⟨b⟩, ⟨c⟩, ⟨d⟩, j + 1⟩ : ProxyRecord) ∈ read_proxy_file lines) ∧
    (read_proxy_file lines).Pairwise (fun r1 r2 => r1.line_num < r2.line_num) ∧
    (∀ j raw, lines.get? j = some raw →
        (trimChars raw.data = [] ∨ (trimChars raw.data).head? = some '#' ∨
          (splitChars (trimChars raw.data)).length ≠ 4) →
        ∀ r ∈ read_proxy_file lines, r.line_num ≠ j + 1) ∧
    ((∀ j raw, lines.get? j = some raw → parseProxyLine (j + 1) raw = none) →
        read_proxy_file lines = []) := by
  refine ⟨?_, ?_, ?_, ?_, ?_⟩
  · intro r hr
    obtain ⟨hle, raw, hget, hparse⟩ := readProxyAux_mem lines 0 r hr
    rw [Nat.sub_zero] at hget
    obtain ⟨hne, hhash, hsplit, _⟩ := (parseProxyLine_eq_some_iff _ _ _).mp hparse
    exact ⟨hle, raw, hget, hne, hhash, hsplit⟩
  · intro j raw a b c d hget hne hhash hsplit
    have hparse : parseProxyLine (j + 1) raw =
        some (⟨⟨a⟩, ⟨b⟩, ⟨c⟩, ⟨d⟩, j + 1⟩ : ProxyRecord) :=
      (parseProxyLine_eq_some_iff _ _ _).mpr ⟨hne, hhash, hsplit, rfl⟩
    have := readProxyAux_mem_intro lines 0 j raw _ hget (by rw [Nat.zero_add]; exact hparse)
    exact this
  · exact readProxyAux_pairwise lines 0
  · intro j raw hget hbad r hr hln
    obtain ⟨_, raw', hget', hparse⟩ := readProxyAux_mem lines 0 r hr
    rw [Nat.sub_zero, hln, Nat.add_sub_cancel, hget] at hget'
    obtain rfl := Option.some_inj.mp hget'
    obtain ⟨hne, hhash, hsplit, _⟩ := (parseProxyLine_eq_some_iff _ _ _).mp hparse
    rcases hbad with hb | hb | hb
    · exact hne hb
    · exact hhash hb
    · rw [hsplit] at hb
      simp at hb
  · intro hall
    exact readProxyAux_nil_of_all_invalid lines 0
      (fun j raw hj => by rw [Nat.zero_add]; exact hall j raw hj)

/-- Witness for C8: a concrete valid second line yields its record. -/
theorem claim_C8_witness :
    (⟨"1.2.3.4", "80", "u", "p", 2⟩ : ProxyRecord) ∈
      read_proxy_file ["# comment", "1.2.3.4:80:u:p"] :=
  (claim_C8 ["# comment", "1.2.3.4:80:u:p"]).2.1 1 "1.2.3.4:80:u:p"
    "1.2.3.4".data "80".data "u".data "p".data rfl (by decide) (by decide) (by decide)

/-! ### Step-1 (proxy generation) lemmas -/

/-- The reverse IP lookup as built by the step-1 loop alone. -/
def buildIpMapAux : Nat → List ProxyRecord → List (String × String) → List (String × String)
  | _, [], m => m
  | i, r :: rest, m => buildIpMapAux (i + 1) rest (dictSet r.ip (proxyName i) m)

theorem genProxiesAux_ok_map :
    ∀ (pl : List ProxyRecord) (i : Nat) (m : List (String × String)) gs m2,
      genProxiesAux i pl m = .ok (gs, m2) → m2 = buildIpMapAux i pl m := by
  intro pl
  induction pl with
  | nil =>
    intro i m gs m2 h
    rw [genProxiesAux] at h
    simp only [Except.ok.injEq, Prod.mk.injEq] at h
    rw [← h.2]
    rfl
  | cons r rest ih =>
    intro i m gs m2 h
    rw [genProxiesAux] at h
    cases hp : pyInt r.port with
    | none => rw [hp] at h; exact Except.noConfusion h
    | some p =>
      rw [hp] at h
      cases hrec : genProxiesAux (i + 1) rest (dictSet r.ip (proxyName i) m) with
      | error e => rw [hrec] at h; exact Except.noConfusion h
      | ok pr =>
        obtain ⟨gs', m'⟩ := pr
        rw [hrec] at h
        simp only [Except.ok.injEq, Prod.mk.injEq] at h
        rw [← h.2]
        exact ih (i + 1) _ gs' m' hrec

theorem genProxiesAux_ok_of_all :
    ∀ (pl : List ProxyRecord) (i : Nat) (m : List (String × String)),
      (∀ r ∈ pl, (pyInt r.port).isSome) →
      ∃ gs, genProxiesAux i pl m = .ok (gs, buildIpMapAux i pl m) ∧
        gs.length = pl.length ∧
        ∀ j r, pl.get? j = some r → ∃ p, pyInt r.port = some p ∧
          gs.get? j = some (mkGeneratedProxy (i + j) r p) := by
  intro pl
  induction pl with
  | nil =>
    intro i m _
    exact ⟨[], rfl, rfl, fun j r h => by simp at h⟩
  | cons r rest ih =>
    intro i m hall
    have hr : (pyInt r.port).isSome := hall r (List.mem_cons_self r rest)
    obtain ⟨p, hp⟩ := Option.isSome_iff_exists.mp hr
    obtain ⟨gs', hok, hlen, hget⟩ :=
      ih (i + 1) (dictSet r.ip (proxyName i) m) (fun x hx => hall x (List.mem_cons_of_mem r hx))
    refine ⟨mkGeneratedProxy i r p :: gs', ?_, ?_, ?_⟩
    · rw [genProxiesAux, hp, hok]
      rfl
    · simp [hlen]
    · intro j x hx
      match j with
      | 0 =>
        obtain rfl := Option.some_inj.mp hx
        exact ⟨p, hp, rfl⟩
      | j + 1 =>
        obtain ⟨q, hq, hgs⟩ := hget j x hx
        refine ⟨q, hq, ?_⟩
        have harith : (i + 1) + j = i + (j + 1) := by omega
        rw [List.get?_cons_succ, hgs, harith]

theorem genProxiesAux_all_of_ok :
    ∀ (pl : List ProxyRecord) (i : Nat) (m : List (String × String)) gs m2,
      genProxiesAux i pl m = .ok (gs, m2) → ∀ r ∈ pl, (pyInt r.port).isSome := by
  intro pl
  induction pl with
  | nil => intro i m gs m2 _ r hr; simp at hr
  | cons r rest ih =>
    intro i m gs m2 h x hx
    rw [genProxiesAux] at h
    cases hp : pyInt r.port with
    | none => rw [hp] at h; exact Except.noConfusion h
    | some p =>
      rw [hp] at h
      cases hrec : genProxiesAux (i + 1) rest (dictSet r.ip (proxyName i) m) with
      | error e => rw [hrec] at h; exact Except.noConfusion h
      | ok pr =>
        rcases List.mem_cons.mp hx with rfl | hx'
        · rw [hp]; rfl
        · exact ih (i + 1) _ pr.1 pr.2 (by rw [hrec]) x hx'

theorem genProxiesAux_error_of_find :
    ∀ (pl : List ProxyRecord) (i : Nat) (m : List (String × String)) r0,
      pl.find? (fun r => (pyInt r.port).isNone) = some r0 →
      genProxiesAux i pl m = .error (.portFormat r0.line_num r0.port) := by
  intro pl
  induction pl with
  | nil => intro i m r0 h; simp at h
  | cons r rest ih =>
    intro i m r0 hfind
    rw [List.find?_cons] at hfind
    cases hp : (pyInt r.port).isNone with
    | true =>
      rw [hp] at hfind
      obtain rfl := Option.some_inj.mp hfind
      rw [genProxiesAux, Option.isNone_iff_eq_none.mp hp]
    | false =>
      rw [hp] at hfind
      have hsome : (pyInt r.port).isSome := by
        cases hq : pyInt r.port
        · rw [hq] at hp; simp at hp
        · rfl
      obtain ⟨p, hpeq⟩ := Option.isSome_iff_exists.mp hsome
      rw [genProxiesAux, hpeq, ih (i + 1) _ r0 hfind]

/-! ### `process_data` shape lemmas -/

/-- Whether an error is the port-format abort of step 1. -/
def MergeError.isPortFormat : MergeError → Bool
  | .portFormat _ _ => true
  | _ => false

theorem processEntry_error_not_port {ipMap : List (String × String)} {k : String}
    {e : MapEntry} {err : MergeError} (h : processEntry ipMap k e = .error err) :
    err.isPortFormat = false := by
  simp only [processEntry] at h
  repeat' split at h
  all_goals first
    | exact Except.noConfusion h
    | (obtain rfl := (Except.error.injEq _ _).mp h; rfl)

theorem processKeys_error_not_port {ipMap : List (String × String)} :
    ∀ (entries : List (String × MapEntry)) err,
      processKeys ipMap entries = .error err → err.isPortFormat = false := by
  intro entries
  induction entries with
  | nil => intro err h; exact Except.noConfusion h
  | cons p rest ih =>
    intro err h
    obtain ⟨k, e⟩ := p
    rw [processKeys] at h
    cases hpe : processEntry ipMap k e with
    | error err0 =>
      rw [hpe] at h
      obtain rfl := (Except.error.injEq _ _).mp h
      exact processEntry_error_not_port hpe
    | ok pr =>
      rw [hpe] at h
      cases hrec : processKeys ipMap rest with
      | error err0 =>
        rw [hrec] at h
        have h2 : (Except.error err0 : Except MergeError (List GeneratedListener × List GeneratedGroup)) = .error err := h
        obtain rfl := (Except.error.injEq _ _).mp h2
        exact ih _ hrec
      | ok pr2 =>
        rw [hrec] at h
        exact Except.noConfusion h

theorem process_data_ok_shape {m : List (String × MapEntry)} {pl : List ProxyRecord}
    {b : List (String × YVal)} {cfg : List (String × YVal)}
    (h : process_data m pl b = .ok cfg) :
    ∃ gs ipMap ls grs, genProxies pl = .ok (gs, ipMap) ∧
      processKeys ipMap (mappingEntriesInOrder m) = .ok (ls, grs) ∧
      cfg = extendListField "proxy-groups" (grs.map GeneratedGroup.toYVal)
        (dictSet "listeners" (.list (ls.map GeneratedListener.toYVal))
          (extendListField "proxies" (gs.map GeneratedProxy.toYVal) b)) := by
  unfold process_data at h
  cases hg : genProxies pl with
  | error e =>
    simp only [hg] at h
    exact Except.noConfusion h
  | ok pr =>
    obtain ⟨gs, ipMap⟩ := pr
    simp only [hg] at h
    cases hk : processKeys ipMap (mappingEntriesInOrder m) with
    | error e =>
      simp only [hk] at h
      exact Except.noConfusion h
    | ok pr2 =>
      obtain ⟨ls, grs⟩ := pr2
      simp only [hk, Except.ok.injEq] at h
      exact ⟨gs, ipMap, ls, grs, rfl, hk, h.symm⟩

theorem process_data_error_shape {m : List (String × MapEntry)} {pl : List ProxyRecord}
    {b : List (String × YVal)} {e : MergeError}
    (h : process_data m pl b = .error e) :
    genProxies pl = .error e ∨
      ∃ gs ipMap, genProxies pl = .ok (gs, ipMap) ∧
        processKeys ipMap (mappingEntriesInOrder m) = .error e := by
  unfold process_data at h
  cases hg : genProxies pl with
  | error e0 =>
    simp only [hg, Except.error.injEq] at h
    exact Or.inl (by rw [h])
  | ok pr =>
    obtain ⟨gs, ipMap⟩ := pr
    simp only [hg] at h
    cases hk : processKeys ipMap (mappingEntriesInOrder m) with
    | error e0 =>
      simp only [hk, Except.error.injEq] at h
      exact Or.inr ⟨gs, ipMap, rfl, by rw [hk, h]⟩
    | ok pr2 =>
      obtain ⟨ls, grs⟩ := pr2
      simp only [hk] at h
      exact Except.noConfusion h

theorem process_data_error_of_gen {m : List (String × MapEntry)} {pl : List ProxyRecord}
    {b : List (String × YVal)} {e : MergeError} (h : genProxies pl = .error e) :
    process_data m pl b = .error e := by
  unfold process_data
  simp only [h]

theorem process_data_error_of_keys {m : List (String × MapEntry)} {pl : List ProxyRecord}
    {b : List (String × YVal)} {e : MergeError} {gs : List GeneratedProxy}
    {ipMap : List (String × String)} (hg : genProxies pl = .ok (gs, ipMap))
    (h : processKeys ipMap (mappingEntriesInOrder m) = .error e) :
    process_data m pl b = .error e := by
  unfold process_data
  simp only [hg, h]

theorem process_data_ok_of_parts {m : List (String × MapEntry)} {pl : List ProxyRecord}
    {b : List (String × YVal)} {gs : List GeneratedProxy} {ipMap : List (String × String)}
    {ls : List GeneratedListener} {grs : List GeneratedGroup}
    (hg : genProxies pl = .ok (gs, ipMap))
    (hk : processKeys ipMap (mappingEntriesInOrder m) = .ok (ls, grs)) :
    process_data m pl b = .ok
      (extendListField "proxy-groups" (grs.map GeneratedGroup.toYVal)
        (dictSet "listeners" (.list (ls.map GeneratedListener.toYVal))
          (extendListField "proxies" (gs.map GeneratedProxy.toYVal) b))) := by
  unfold process_data
  simp only [hg, hk]

/-! ### `extendListField` lemmas -/

theorem extendListField_list {k : String} {d : List (String × YVal)} {P : List YVal}
    (h : dictGet k d = some (.list P)) (new : List YVal) :
    extendListField k new d = dictSet k (.list (P ++ new)) d := by
  unfold extendListField
  rw [h]

theorem extendListField_nonlist {k : String} {d : List (String × YVal)} {v : YVal}
    (h : dictGet k d = some v) (hv : v.isList = false) (new : List YVal) :
    extendListField k new d = dictSet k (.list new) d := by
  unfold extendListField
  rw [h]
  cases v <;> first | rfl | exact absurd hv (by simp [YVal.isList])

theorem extendListField_none {k : String} {d : List (String × YVal)}
    (h : dictGet k d = none) (new : List YVal) :
    extendListField k new d = dictSet k (.list new) d := by
  unfold extendListField
  rw [h]

theorem dictGet_extendListField_ne {k k' : String} (h : k ≠ k') (new : List YVal)
    (d : List (String × YVal)) :
    dictGet k' (extendListField k new d) = dictGet k' d := by
  unfold extendListField
  split
  · exact dictGet_dictSet_ne h _ d
  · exact dictGet_dictSet_ne h _ d

/-- C1: step 1 of the merge succeeds exactly when every record's port field
parses as an integer; on success it builds one generated proxy per record,
named `socks_out_` plus the 1-based index in file order zero-padded to two
digits, with type socks5, server the record's ip, the parsed integer port,
the record's username and password, tls false, skip-cert-verify true, udp
true, and the merge appends them all in file order to the proxies list; if
some record's port does not parse, the whole merge aborts with a
port-format error naming that (first such) record's source line number. -/
theorem claim_C1 (mapping : List (String × MapEntry)) (pl : List ProxyRecord)
    (base : List (String × YVal)) :
    ((∃ gs ipMap, genProxies pl = .ok (gs, ipMap)) ↔ ∀ r ∈ pl, (pyInt r.port).isSome) ∧
    (∀ r0, pl.find? (fun r => (pyInt r.port).isNone) = some r0 →
        process_data mapping pl base = .error (.portFormat r0.line_num r0.port)) ∧
    (∀ gs ipMap, genProxies pl = .ok (gs, ipMap) →
        gs.length = pl.length ∧
        ∀ j r, pl.get? j = some r → ∃ p, pyInt r.port = some p ∧
          gs.get? j = some { name := "socks_out_" ++ pad2 (j + 1), type := "socks5",
                             server := r.ip, port := p, username := r.user,
                             password := r.pass, tls := false, skipCertVerify := true,
                             udp := true }) ∧
    (∀ cfg, process_data mapping pl base = .ok cfg →
        ∃ gs ipMap pre, genProxies pl = .ok (gs, ipMap) ∧
          dictGet "proxies" cfg = some (.list (pre ++ gs.map GeneratedProxy.toYVal))) := by
  refine ⟨⟨?_, ?_⟩, ?_, ?_, ?_⟩
  · rintro ⟨gs, ipMap, h⟩
    exact genProxiesAux_all_of_ok pl 0 [] gs ipMap h
  · intro hall
    obtain ⟨gs, hok, -, -⟩ := genProxiesAux_ok_of_all pl 0 [] hall
    exact ⟨gs, buildIpMapAux 0 pl [], hok⟩
  · intro r0 hfind
    exact process_data_error_of_gen (genProxiesAux_error_of_find pl 0 [] r0 hfind)
  · intro gs ipMap h
    have hall := genProxiesAux_all_of_ok pl 0 [] gs ipMap h
    obtain ⟨gs', hok, hlen, hget⟩ := genProxiesAux_ok_of_all pl 0 [] hall
    rw [genProxies] at h
    rw [h] at hok
    have hpair := (Except.ok.injEq _ _).mp hok
    have hgs : gs = gs' := congrArg Prod.fst hpair
    subst hgs
    refine ⟨hlen, fun j r hjr => ?_⟩
    obtain ⟨p, hp, hj⟩ := hget j r hjr
    refine ⟨p, hp, ?_⟩
    rw [hj]
    simp only [mkGeneratedProxy, Nat.zero_add, proxyName]
  · intro cfg hcfg
    obtain ⟨gs, ipMap, ls, grs, hg, hk, rfl⟩ := process_data_ok_shape hcfg
    refine ⟨gs, ipMap, ?_⟩
    rw [dictGet_extendListField_ne (by decide) _ _,
      dictGet_dictSet_ne (by decide) _ _]
    cases hb : dictGet "proxies" base with
    | none =>
      refine ⟨[], hg, ?_⟩
      rw [extendListField_none hb, dictGet_dictSet_self]
      rfl
    | some v =>
      cases hv : v.isList with
      | true =>
        match v, hv with
        | .list P, _ =>
          refine ⟨P, hg, ?_⟩
          rw [extendListField_list hb, dictGet_dictSet_self]
      | false =>
        refine ⟨[], hg, ?_⟩
        rw [extendListField_nonlist hb hv, dictGet_dictSet_self]
        rfl

/-- Witness for C1: a malformed port on source line 3 aborts the merge with
a port-format error naming line 3. -/
theorem claim_C1_witness :
    process_data [] [⟨"1.2.3.4", "notaport", "u", "p", 3⟩] [] =
      .error (.portFormat 3 "notaport") :=
  (claim_C1 [] [⟨"1.2.3.4", "notaport", "u", "p", 3⟩] []).2.1
    ⟨"1.2.3.4", "notaport", "u", "p", 3⟩ (by decide)

/-! ### `processEntry` evaluation lemmas -/

theorem processEntry_local_none {ipMap : List (String × String)} {k : String} {e : MapEntry}
    (hl : e.socks_local = none) :
    processEntry ipMap k e = .error (.localInvalid k none) := by
  simp only [processEntry, hl]

theorem processEntry_local_bad {ipMap : List (String × String)} {k : String} {e : MapEntry}
    {s : String} (hl : e.socks_local = some s) (hbad : s = "" ∨ hasColon s.data = false) :
    processEntry ipMap k e = .error (.localInvalid k (some s)) := by
  have hcond : (decide (s = "") || !hasColon s.data) = true := by
    rcases hbad with h | h
    · subst h; rfl
    · rw [h]; simp
  simp only [processEntry, hl, hcond, if_true]

theorem processEntry_local_port_bad {ipMap : List (String × String)} {k : String}
    {e : MapEntry} {s : String} (hl : e.socks_local = some s) (hs : s ≠ "")
    (hc : hasColon s.data = true)
    (hp : pyInt ⟨(splitOnceChars s.data).2⟩ = none) :
    processEntry ipMap k e = .error (.localPortInvalid k ⟨(splitOnceChars s.data).2⟩) := by
  have hcond : (decide (s = "") || !hasColon s.data) = false := by
    simp [hs, hc]
  simp only [processEntry, hl, hcond, Bool.false_eq_true, if_false, hp]

theorem processEntry_remote_missing {ipMap : List (String × String)} {k : String}
    {e : MapEntry} {s : String} (hl : e.socks_local = some s) (hs : s ≠ "")
    (hc : hasColon s.data = true) {p : Int}
    (hp : pyInt ⟨(splitOnceChars s.data).2⟩ = some p)
    (hr : e.socks_remote = none ∨ e.socks_remote = some "") :
    processEntry ipMap k e = .error (.remoteMissing k) := by
  have hcond : (decide (s = "") || !hasColon s.data) = false := by
    simp [hs, hc]
  rcases hr with h | h
  · simp only [processEntry, hl, hcond, Bool.false_eq_true, if_false, hp, h]
  · simp only [processEntry, hl, hcond, Bool.false_eq_true, if_false, hp, h, if_pos rfl,
      if_true]

theorem processEntry_ok_of_hit {ipMap : List (String × String)} {k : String} {e : MapEntry}
    {s t : String} {p : Int} {name : String}
    (hl : e.socks_local = some s) (hs : s ≠ "") (hc : hasColon s.data = true)
    (hp : pyInt ⟨(splitOnceChars s.data).2⟩ = some p)
    (hr : e.socks_remote = some t) (ht : t ≠ "")
    (hhit : dictGet t ipMap = some name) :
    processEntry ipMap k e = .ok
      ({ name := "socks_" ++ k, type := "mixed", port := p, proxy := "socks_relay_" ++ k },
       { name := "socks_relay_" ++ k, type := "relay",
         proxies := ["Switch-Proxy", name] }) := by
  have hcond : (decide (s = "") || !hasColon s.data) = false := by
    simp [hs, hc]
  simp only [processEntry, hl, hcond, Bool.false_eq_true, if_false, hp, hr, if_neg ht, hhit]

theorem processEntry_ok_of_prefix_hit {ipMap : List (String × String)} {k : String}
    {e : MapEntry} {s t : String} {p : Int} {name : String}
    (hl : e.socks_local = some s) (hs : s ≠ "") (hc : hasColon s.data = true)
    (hp : pyInt ⟨(splitOnceChars s.data).2⟩ = some p)
    (hr : e.socks_remote = some t) (ht : t ≠ "")
    (hmiss : dictGet t ipMap = none) (htc : hasColon t.data = true)
    (hhit : dictGet (⟨(splitOnceChars t.data).1⟩ : String) ipMap = some name) :
    processEntry ipMap k e = .ok
      ({ name := "socks_" ++ k, type := "mixed", port := p, proxy := "socks_relay_" ++ k },
       { name := "socks_relay_" ++ k, type := "relay",
         proxies := ["Switch-Proxy", name] }) := by
  have hcond : (decide (s = "") || !hasColon s.data) = false := by
    simp [hs, hc]
  simp only [processEntry, hl, hcond, Bool.false_eq_true, if_false, hp, hr, if_neg ht,
    hmiss, htc, if_pos rfl, hhit, if_true]

theorem processEntry_unresolved {ipMap : List (String × String)} {k : String}
    {e : MapEntry} {s t : String} {p : Int}
    (hl : e.socks_local = some s) (hs : s ≠ "") (hc : hasColon s.data = true)
    (hp : pyInt ⟨(splitOnceChars s.data).2⟩ = some p)
    (hr : e.socks_remote = some t) (ht : t ≠ "")
    (hmiss : dictGet t ipMap = none)
    (hpre : hasColon t.data = true → dictGet (⟨(splitOnceChars t.data).1⟩ : String) ipMap = none) :
    processEntry ipMap k e = .error (.unresolvedRemote k t) := by
  have hcond : (decide (s = "") || !hasColon s.data) = false := by
    simp [hs, hc]
  cases htc : hasColon t.data with
  | true =>
    simp only [processEntry, hl, hcond, Bool.false_eq_true, if_false, hp, hr, if_neg ht,
      hmiss, htc, if_pos rfl, hpre htc, if_true]
  | false =>
    simp only [processEntry, hl, hcond, Bool.false_eq_true, if_false, hp, hr, if_neg ht,
      hmiss, htc, Bool.false_eq_true, if_false]

theorem processEntry_listener_of_ok {ipMap : List (String × String)} {k : String}
    {e : MapEntry} {s : String} {p : Int} {lst : GeneratedListener} {grp : GeneratedGroup}
    (hl : e.socks_local = some s) (hp : pyInt ⟨(splitOnceChars s.data).2⟩ = some p)
    (h : processEntry ipMap k e = .ok (lst, grp)) :
    lst = { name := "socks_" ++ k, type := "mixed", port := p,
            proxy := "socks_relay_" ++ k } := by
  simp only [processEntry, hl, hp] at h
  repeat' split at h
  all_goals first
    | exact Except.noConfusion h
    | (have h2 := (Except.ok.injEq _ _).mp h; exact (congrArg Prod.fst h2).symm)

/-! ### Reverse-lookup (last-write-wins) lemmas -/

theorem buildIpMapAux_append :
    ∀ (l1 : List ProxyRecord) (i : Nat) (m : List (String × String)) (l2 : List ProxyRecord),
      buildIpMapAux i (l1 ++ l2) m =
        buildIpMapAux (i + l1.length) l2 (buildIpMapAux i l1 m) := by
  intro l1
  induction l1 with
  | nil => intro i m l2; simp [buildIpMapAux]
  | cons r rest ih =>
    intro i m l2
    have step : buildIpMapAux i ((r :: rest) ++ l2) m =
        buildIpMapAux (i + 1) (rest ++ l2) (dictSet r.ip (proxyName i) m) := rfl
    have step2 : buildIpMapAux i (r :: rest) m =
        buildIpMapAux (i + 1) rest (dictSet r.ip (proxyName i) m) := rfl
    rw [step, ih (i + 1) (dictSet r.ip (proxyName i) m) l2, step2, List.length_cons]
    congr 1
    omega

theorem dictGet_buildIpMapAux_not_mem :
    ∀ (pl : List ProxyRecord) (i : Nat) (m : List (String × String)) (ip : String),
      (∀ r ∈ pl, r.ip ≠ ip) → dictGet ip (buildIpMapAux i pl m) = dictGet ip m := by
  intro pl
  induction pl with
  | nil => intro i m ip _; rfl
  | cons r rest ih =>
    intro i m ip hne
    rw [buildIpMapAux, ih (i + 1) _ ip (fun x hx => hne x (List.mem_cons_of_mem r hx))]
    exact dictGet_dictSet_ne (hne r (List.mem_cons_self r rest)) _ m

/-- C2: when several proxy records share one IP string, the reverse lookup
maps that IP to the generated proxy of the last such record in file order
(last-write-wins), so a mapping entry whose socks_remote is that IP gets a
relay group naming the last record's proxy, not an earlier one's (the
names of distinct positions differ). -/
theorem claim_C2 (l1 l2 : List ProxyRecord) (r : ProxyRecord)
    (gs : List GeneratedProxy) (m2 : List (String × String))
    (hok : genProxies (l1 ++ r :: l2) = .ok (gs, m2))
    (hlast : ∀ r' ∈ l2, r'.ip ≠ r.ip) :
    dictGet r.ip m2 = some (proxyName l1.length) ∧
    (∀ i (hi : i < l1.length), (l1.get ⟨i, hi⟩).ip = r.ip →
        proxyName i ≠ proxyName l1.length) ∧
    (∀ k e s0 p lst grp,
        e.socks_local = some s0 → s0 ≠ "" → hasColon s0.data = true →
        pyInt ⟨(splitOnceChars s0.data).2⟩ = some p →
        e.socks_remote = some r.ip →
        processEntry m2 k e = .ok (lst, grp) →
        grp.proxies = ["Switch-Proxy", proxyName l1.length]) := by
  have hmap : m2 = buildIpMapAux 0 (l1 ++ r :: l2) [] :=
    genProxiesAux_ok_map (l1 ++ r :: l2) 0 [] gs m2 hok
  have hlookup : dictGet r.ip m2 = some (proxyName l1.length) := by
    rw [hmap, buildIpMapAux_append l1 0 [] (r :: l2), buildIpMapAux,
      dictGet_buildIpMapAux_not_mem l2 _ _ r.ip hlast, Nat.zero_add,
      dictGet_dictSet_self]
  refine ⟨hlookup, ?_, ?_⟩
  · intro i hi _ hname
    exact absurd (proxyName_inj i l1.length hname) (Nat.ne_of_lt hi)
  · intro k e s0 p lst grp hl hs0 hc hp hr hpe
    by_cases hip : r.ip = ""
    · rw [processEntry_remote_missing hl hs0 hc hp (Or.inr (by rw [hr, hip]))] at hpe
      exact Except.noConfusion hpe
    · rw [processEntry_ok_of_hit hl hs0 hc hp hr hip hlookup] at hpe
      injection hpe with h2
      injection h2 with h3 h4
      rw [← h4]

/-- Witness for C2: two records with the same IP; the reverse lookup holds
the second record's proxy name. -/
theorem claim_C2_witness :
    dictGet "10.0.0.5" [("10.0.0.5", "socks_out_02")] = some (proxyName 1) :=
  (claim_C2 [⟨"10.0.0.5", "1080", "a", "x", 1⟩] [] ⟨"10.0.0.5", "1081", "b", "y", 2⟩
    [⟨"socks_out_01", "socks5", "10.0.0.5", 1080, "a", "x", false, true, true⟩,
     ⟨"socks_out_02", "socks5", "10.0.0.5", 1081, "b", "y", false, true, true⟩]
    [("10.0.0.5", "socks_out_02")] rfl
    (fun r' hr' => absurd hr' (List.not_mem_nil r'))).1

/-- C3: for a mapping entry with key K whose socks_local passed validation:
a missing or empty socks_remote aborts with the mapping-format error
(remote missing) naming K; otherwise the target name is looked up under
the full socks_remote string first, then — only on a miss and when the
string has a colon — under the prefix before the first colon; a double
miss aborts with the unresolved-remote error naming K and the attempted
value, and a hit produces the relay group socks_relay_K of type relay with
proxies exactly [Switch-Proxy, resolved name] in that order. -/
theorem claim_C3 (ipMap : List (String × String)) (k : String) (e : MapEntry)
    (s : String) (p : Int)
    (hl : e.socks_local = some s) (hs : s ≠ "") (hc : hasColon s.data = true)
    (hp : pyInt ⟨(splitOnceChars s.data).2⟩ = some p) :
    ((e.socks_remote = none ∨ e.socks_remote = some "") →
        processEntry ipMap k e = .error (.remoteMissing k)) ∧
    (∀ t name, e.socks_remote = some t → t ≠ "" → dictGet t ipMap = some name →
        processEntry ipMap k e = .ok
          ({ name := "socks_" ++ k, type := "mixed", port := p,
             proxy := "socks_relay_" ++ k },
           { name := "socks_relay_" ++ k, type := "relay",
             proxies := ["Switch-Proxy", name] })) ∧
    (∀ t name, e.socks_remote = some t → t ≠ "" → dictGet t ipMap = none →
        hasColon t.data = true →
        dictGet (⟨(splitOnceChars t.data).1⟩ : String) ipMap = some name →
        processEntry ipMap k e = .ok
          ({ name := "socks_" ++ k, type := "mixed", port := p,
             proxy := "socks_relay_" ++ k },
           { name := "socks_relay_" ++ k, type := "relay",
             proxies := ["Switch-Proxy", name] })) ∧
    (∀ t, e.socks_remote = some t → t ≠ "" → dictGet t ipMap = none →
        (hasColon t.data = true →
          dictGet (⟨(splitOnceChars t.data).1⟩ : String) ipMap = none) →
        processEntry ipMap k e = .error (.unresolvedRemote k t)) := by
  refine ⟨?_, ?_, ?_, ?_⟩
  · intro hr
    exact processEntry_remote_missing hl hs hc hp hr
  · intro t name hr ht hhit
    exact processEntry_ok_of_hit hl hs hc hp hr ht hhit
  · intro t name hr ht hmiss htc hhit
    exact processEntry_ok_of_prefix_hit hl hs hc hp hr ht hmiss htc hhit
  · intro t hr ht hmiss hpre
    exact processEntry_unresolved hl hs hc hp hr ht hmiss hpre

/-- Witness for C3: a remote that misses on the full string but resolves
through its colon prefix yields the relay group with the sentinel first. -/
theorem claim_C3_witness :
    processEntry [("9.9.9.9", "socks_out_01")] "5"
      { socks_local := some "127.0.0.1:1080", socks_remote := some "9.9.9.9:443" } =
      .ok ({ name := "socks_5", type := "mixed", port := 1080, proxy := "socks_relay_5" },
           { name := "socks_relay_5", type := "relay",
             proxies := ["Switch-Proxy", "socks_out_01"] }) :=
  (claim_C3 [("9.9.9.9", "socks_out_01")] "5"
      { socks_local := some "127.0.0.1:1080", socks_remote := some "9.9.9.9:443" }
      "127.0.0.1:1080" 1080 rfl (by decide) (by decide) (by decide)).2.2.1
    "9.9.9.9:443" "socks_out_01" rfl (by decide) (by decide) (by decide) (by decide)

/-- C5: for a mapping entry with key K: a missing socks_local, an empty
one, or one without a colon aborts with a mapping-format error naming K;
if the substring after the first colon does not parse as an integer the
merge aborts with a mapping-format error naming K; otherwise the listener
produced (when the entry succeeds) is named socks_K, of type mixed, bound
to the parsed port, and routed to the group socks_relay_K. -/
theorem claim_C5 (ipMap : List (String × String)) (k : String) (e : MapEntry) :
    (e.socks_local = none → processEntry ipMap k e = .error (.localInvalid k none)) ∧
    (∀ s, e.socks_local = some s → (s = "" ∨ hasColon s.data = false) →
        processEntry ipMap k e = .error (.localInvalid k (some s))) ∧
    (∀ s, e.socks_local = some s → s ≠ "" → hasColon s.data = true →
        pyInt ⟨(splitOnceChars s.data).2⟩ = none →
        processEntry ipMap k e = .error (.localPortInvalid k ⟨(splitOnceChars s.data).2⟩)) ∧
    (∀ s p lst grp, e.socks_local = some s →
        pyInt ⟨(splitOnceChars s.data).2⟩ = some p →
        processEntry ipMap k e = .ok (lst, grp) →
        lst = { name := "socks_" ++ k, type := "mixed", port := p,
                proxy := "socks_relay_" ++ k }) := by
  refine ⟨?_, ?_, ?_, ?_⟩
  · intro hl
    exact processEntry_local_none hl
  · intro s hl hbad
    exact processEntry_local_bad hl hbad
  · intro s hl hs hc hp
    exact processEntry_local_port_bad hl hs hc hp
  · intro s p lst grp hl hp h
    exact processEntry_listener_of_ok hl hp h

/-- Witness for C5: a socks_local without a colon aborts with the
mapping-format error naming the key. -/
theorem claim_C5_witness :
    processEntry [] "7" { socks_local := some "localhost", socks_remote := some "1.1.1.1" } =
      .error (.localInvalid "7" (some "localhost")) :=
  (claim_C5 [] "7" { socks_local := some "localhost", socks_remote := some "1.1.1.1" }).2.1
    "localhost" rfl (Or.inr (by decide))

/-! ### Key-ordering lemmas -/

instance keyIntRelTotal : IsTotal String (fun a b => keyIntVal a ≤ keyIntVal b) :=
  ⟨fun x y => le_total (keyIntVal x) (keyIntVal y)⟩

instance keyIntRelTrans : IsTrans String (fun a b => keyIntVal a ≤ keyIntVal b) :=
  ⟨fun _ _ _ hab hbc => le_trans hab hbc⟩

theorem sortKeysFn_sorted_int {keys : List String} (h : allKeysInt keys = true) :
    (sortKeysFn keys).Pairwise (fun a b => keyIntVal a ≤ keyIntVal b) := by
  rw [sortKeysFn, if_pos h]
  exact List.sorted_insertionSort _ keys

theorem sortKeysFn_sorted_lex {keys : List String} (h : allKeysInt keys = false) :
    (sortKeysFn keys).Pairwise (fun a b : String => a ≤ b) := by
  rw [sortKeysFn, h]
  simp only [Bool.false_eq_true, if_false]
  exact List.sorted_insertionSort _ keys

theorem sortKeysFn_perm (keys : List String) : (sortKeysFn keys).Perm keys := by
  rw [sortKeysFn]
  split
  · exact List.perm_insertionSort _ keys
  · exact List.perm_insertionSort _ keys

theorem eq_of_perm_map_inj {α β : Type} :
    ∀ (l1 l2 : List α) (f : α → β), l1.Perm l2 → l1.map f = l2.map f →
      (l1.map f).Nodup → l1 = l2 := by
  intro l1
  induction l1 with
  | nil =>
    intro l2 f hperm _ _
    exact (hperm.symm.eq_nil).symm
  | cons a t1 ih =>
    intro l2 f hperm hmap hnodup
    cases l2 with
    | nil => simp at hmap
    | cons b t2 =>
      simp only [List.map_cons, List.cons.injEq] at hmap
      obtain ⟨hfab, hmapt⟩ := hmap
      have hab : a = b := by
        by_contra hne
        have hbmem : b ∈ t1 := by
          have hm : b ∈ a :: t1 := hperm.mem_iff.mpr (List.mem_cons_self b t2)
          rcases List.mem_cons.mp hm with h | h
          · exact absurd h.symm hne
          · exact h
        have hfb : f b ∈ t1.map f := List.mem_map_of_mem f hbmem
        rw [← hfab] at hfb
        exact (List.nodup_cons.mp (by simpa using hnodup)).1 hfb
      subst hab
      have hperm2 : t1.Perm t2 := (List.perm_cons a).mp hperm
      rw [ih t2 f hperm2 hmapt (List.nodup_cons.mp (by simpa using hnodup)).2]

theorem allKeysInt_perm {K1 K2 : List String} (hperm : K1.Perm K2) :
    allKeysInt K1 = allKeysInt K2 := by
  cases h2 : allKeysInt K2 with
  | true =>
    rw [allKeysInt, List.all_eq_true] at h2 ⊢
    exact fun k hk => h2 k (hperm.mem_iff.mp hk)
  | false =>
    rw [allKeysInt, List.all_eq_false] at h2 ⊢
    obtain ⟨x, hx, hpx⟩ := h2
    exact ⟨x, hperm.mem_iff.mpr hx, hpx⟩

theorem sortKeysFn_perm_invariant_int {K1 K2 : List String} (hperm : K1.Perm K2)
    (hall : allKeysInt K1 = true) (hinj : (K1.map keyIntVal).Nodup) :
    sortKeysFn K1 = sortKeysFn K2 := by
  have hall2 : allKeysInt K2 = true := (allKeysInt_perm hperm).symm.trans hall
  have hs1 := sortKeysFn_sorted_int hall
  have hs2 := sortKeysFn_sorted_int hall2
  have hp : (sortKeysFn K1).Perm (sortKeysFn K2) :=
    (sortKeysFn_perm K1).trans (hperm.trans (sortKeysFn_perm K2).symm)
  have hmap : (sortKeysFn K1).map keyIntVal = (sortKeysFn K2).map keyIntVal :=
    @List.eq_of_perm_of_sorted Int (fun a b => a ≤ b) inferInstance _ _
      (hp.map keyIntVal) (List.pairwise_map.mpr hs1) (List.pairwise_map.mpr hs2)
  have hnodup : ((sortKeysFn K1).map keyIntVal).Nodup :=
    (((sortKeysFn_perm K1).map keyIntVal).nodup_iff).mpr hinj
  exact eq_of_perm_map_inj _ _ keyIntVal hp hmap hnodup

theorem sortKeysFn_perm_invariant_lex {K1 K2 : List String} (hperm : K1.Perm K2)
    (hall : allKeysInt K1 = false) :
    sortKeysFn K1 = sortKeysFn K2 := by
  have hall2 : allKeysInt K2 = false := (allKeysInt_perm hperm).symm.trans hall
  have hp : (sortKeysFn K1).Perm (sortKeysFn K2) :=
    (sortKeysFn_perm K1).trans (hperm.trans (sortKeysFn_perm K2).symm)
  exact List.eq_of_perm_of_sorted hp (sortKeysFn_sorted_lex hall) (sortKeysFn_sorted_lex hall2)

/-! ### Output-order lemmas -/

theorem processEntry_names_of_ok {ipMap : List (String × String)} {k : String}
    {e : MapEntry} {lst : GeneratedListener} {grp : GeneratedGroup}
    (h : processEntry ipMap k e = .ok (lst, grp)) :
    lst.name = "socks_" ++ k ∧ grp.name = "socks_relay_" ++ k ∧ grp.type = "relay" := by
  simp only [processEntry] at h
  repeat' split at h
  all_goals first
    | exact Except.noConfusion h
    | (injection h with h2; injection h2 with h3 h4; rw [← h3, ← h4]; exact ⟨rfl, rfl, rfl⟩)

theorem processKeys_names {ipMap : List (String × String)} :
    ∀ (entries : List (String × MapEntry)) ls grs,
      processKeys ipMap entries = .ok (ls, grs) →
      ls.map GeneratedListener.name = entries.map (fun p => "socks_" ++ p.1) ∧
      grs.map GeneratedGroup.name = entries.map (fun p => "socks_relay_" ++ p.1) := by
  intro entries
  induction entries with
  | nil =>
    intro ls grs h
    rw [processKeys] at h
    injection h with h2
    injection h2 with ha hb
    rw [← ha, ← hb]
    exact ⟨rfl, rfl⟩
  | cons p rest ih =>
    intro ls grs h
    obtain ⟨k, e⟩ := p
    rw [processKeys] at h
    cases hpe : processEntry ipMap k e with
    | error err => rw [hpe] at h; exact Except.noConfusion h
    | ok pr =>
      obtain ⟨l, g⟩ := pr
      rw [hpe] at h
      cases hrec : processKeys ipMap rest with
      | error err =>
        rw [hrec] at h
        exact Except.noConfusion h
      | ok pr2 =>
        obtain ⟨ls', gs'⟩ := pr2
        rw [hrec] at h
        injection h with h2
        injection h2 with hls hgs
        obtain ⟨hn1, hn2, -⟩ := processEntry_names_of_ok hpe
        obtain ⟨ih1, ih2⟩ := ih ls' gs' hrec
        rw [← hls, ← hgs]
        simp only [List.map_cons, ih1, ih2, hn1, hn2]
        constructor <;> trivial

theorem filterMap_dictGet_fst (m : List (String × MapEntry)) :
    ∀ keys : List String, (∀ k ∈ keys, (dictGet k m).isSome) →
      (keys.filterMap (fun k => (dictGet k m).map (fun e => (k, e)))).map Prod.fst = keys := by
  intro keys
  induction keys with
  | nil => intro _; rfl
  | cons k rest ih =>
    intro hall
    have hk := hall k (List.mem_cons_self k rest)
    obtain ⟨e, he⟩ := Option.isSome_iff_exists.mp hk
    simp only [List.filterMap_cons, he, Option.map_some', List.map_cons]
    rw [ih (fun x hx => hall x (List.mem_cons_of_mem k hx))]

theorem mappingEntriesInOrder_fst (m : List (String × MapEntry)) :
    (mappingEntriesInOrder m).map Prod.fst = sortKeysFn (m.map Prod.fst) := by
  rw [mappingEntriesInOrder]
  exact filterMap_dictGet_fst m _
    (fun k hk => dictGet_isSome_of_mem ((sortKeysFn_perm _).mem_iff.mp hk))

/-- The value stored under the "name" key of a generated YAML dictionary. -/
def yvalName : YVal → Option String
  | .dict fields =>
    match dictGet "name" fields with
    | some (.str s) => some s
    | _ => none
  | _ => none

theorem listener_yval_names {ls : List GeneratedListener} {m : List (String × MapEntry)}
    (hn1 : ls.map GeneratedListener.name =
      (mappingEntriesInOrder m).map (fun p => "socks_" ++ p.1)) :
    (ls.map GeneratedListener.toYVal).map yvalName =
      (sortKeysFn (m.map Prod.fst)).map (fun k => some ("socks_" ++ k)) := by
  calc (ls.map GeneratedListener.toYVal).map yvalName
      = (ls.map GeneratedListener.name).map some := by
        rw [List.map_map, List.map_map]
        exact List.map_congr_left (fun l _ => rfl)
    _ = ((mappingEntriesInOrder m).map (fun p => "socks_" ++ p.1)).map some := by rw [hn1]
    _ = (sortKeysFn (m.map Prod.fst)).map (fun k => some ("socks_" ++ k)) := by
        rw [← mappingEntriesInOrder_fst, List.map_map, List.map_map]
        exact List.map_congr_left (fun p _ => rfl)

theorem group_yval_names {grs : List GeneratedGroup} {m : List (String × MapEntry)}
    (hn2 : grs.map GeneratedGroup.name =
      (mappingEntriesInOrder m).map (fun p => "socks_relay_" ++ p.1)) :
    (grs.map GeneratedGroup.toYVal).map yvalName =
      (sortKeysFn (m.map Prod.fst)).map (fun k => some ("socks_relay_" ++ k)) := by
  calc (grs.map GeneratedGroup.toYVal).map yvalName
      = (grs.map GeneratedGroup.name).map some := by
        rw [List.map_map, List.map_map]
        exact List.map_congr_left (fun l _ => rfl)
    _ = ((mappingEntriesInOrder m).map (fun p => "socks_relay_" ++ p.1)).map some := by rw [hn2]
    _ = (sortKeysFn (m.map Prod.fst)).map (fun k => some ("socks_relay_" ++ k)) := by
        rw [← mappingEntriesInOrder_fst, List.map_map, List.map_map]
        exact List.map_congr_left (fun p _ => rfl)

/-- The listener-name sequence of a merge result, used to observe output
order. -/
def listenerNamesOf : Except MergeError (List (String × YVal)) → Option (List (Option String))
  | .error _ => none
  | .ok cfg =>
    match dictGet "listeners" cfg with
    | some (.list L) => some (L.map yvalName)
    | _ => none

/-- Counterexample to C4 as stated: two mapping tables that are
permutations of each other (same key-value pairs, both keys parsing as
integers) produce different listener orders, because the keys "01" and "1"
have the same integer value and Python's stable sort breaks the tie by
source order.  So the output is not independent of the source JSON's own
key order. -/
theorem claim_C4_cex :
    ([("01", ({ socks_local := some "0.0.0.0:1081", socks_remote := some "10.0.0.5" } : MapEntry)),
      ("1", { socks_local := some "0.0.0.0:1082", socks_remote := some "10.0.0.5" })]).Perm
      [("1", ({ socks_local := some "0.0.0.0:1082", socks_remote := some "10.0.0.5" } : MapEntry)),
       ("01", { socks_local := some "0.0.0.0:1081", socks_remote := some "10.0.0.5" })] ∧
    allKeysInt ["01", "1"] = true ∧
    listenerNamesOf (process_data
        [("01", { socks_local := some "0.0.0.0:1081", socks_remote := some "10.0.0.5" }),
         ("1", { socks_local := some "0.0.0.0:1082", socks_remote := some "10.0.0.5" })]
        [⟨"10.0.0.5", "1080", "alice", "secret", 1⟩] []) ≠
      listenerNamesOf (process_data
        [("1", { socks_local := some "0.0.0.0:1082", socks_remote := some "10.0.0.5" }),
         ("01", { socks_local := some "0.0.0.0:1081", socks_remote := some "10.0.0.5" })]
        [⟨"10.0.0.5", "1080", "alice", "secret", 1⟩] []) := by
  refine ⟨List.Perm.swap _ _ [], by decide, by decide⟩

/-- C4 (amended): the merge iterates mapping keys sorted ascending by
integer value when every key parses as an integer (ties between distinct
key strings of equal integer value broken by source order, the sort being
stable), and in lexicographic string order otherwise; the generated
listeners and relay groups appear in the output in that key order.  The
order is independent of the source JSON's own key order in the
lexicographic branch, and in the integer branch whenever the keys'
integer values are pairwise distinct. -/
theorem claim_C4_amended (m : List (String × MapEntry)) (pl : List ProxyRecord)
    (b : List (String × YVal)) :
    (allKeysInt (m.map Prod.fst) = true →
        (sortKeysFn (m.map Prod.fst)).Pairwise (fun a b => keyIntVal a ≤ keyIntVal b) ∧
        (sortKeysFn (m.map Prod.fst)).Perm (m.map Prod.fst)) ∧
    (allKeysInt (m.map Prod.fst) = false →
        (sortKeysFn (m.map Prod.fst)).Pairwise (fun a b : String => a ≤ b) ∧
        (sortKeysFn (m.map Prod.fst)).Perm (m.map Prod.fst)) ∧
    (∀ cfg, process_data m pl b = .ok cfg →
        ∃ L, dictGet "listeners" cfg = some (.list L) ∧
          L.map yvalName = (sortKeysFn (m.map Prod.fst)).map (fun k => some ("socks_" ++ k)) ∧
          ∃ pre G, dictGet "proxy-groups" cfg = some (.list (pre ++ G)) ∧
            G.map yvalName =
              (sortKeysFn (m.map Prod.fst)).map (fun k => some ("socks_relay_" ++ k))) ∧
    (∀ K1 K2 : List String, K1.Perm K2 → allKeysInt K1 = true →
        (K1.map keyIntVal).Nodup → sortKeysFn K1 = sortKeysFn K2) ∧
    (∀ K1 K2 : List String, K1.Perm K2 → allKeysInt K1 = false →
        sortKeysFn K1 = sortKeysFn K2) := by
  refine ⟨?_, ?_, ?_, ?_, ?_⟩
  · intro h
    exact ⟨sortKeysFn_sorted_int h, sortKeysFn_perm _⟩
  · intro h
    exact ⟨sortKeysFn_sorted_lex h, sortKeysFn_perm _⟩
  · intro cfg hcfg
    obtain ⟨gs, ipMap, ls, grs, hg, hk, rfl⟩ := process_data_ok_shape hcfg
    obtain ⟨hn1, hn2⟩ := processKeys_names (mappingEntriesInOrder m) ls grs hk
    have hfst := mappingEntriesInOrder_fst m
    refine ⟨ls.map GeneratedListener.toYVal, ?_, listener_yval_names hn1, ?_⟩
    · rw [dictGet_extendListField_ne (by decide) _ _, dictGet_dictSet_self]
    · cases hb : dictGet "proxy-groups" (dictSet "listeners"
          (YVal.list (ls.map GeneratedListener.toYVal))
          (extendListField "proxies" (gs.map GeneratedProxy.toYVal) b)) with
      | none =>
        refine ⟨[], grs.map GeneratedGroup.toYVal, ?_, group_yval_names hn2⟩
        rw [extendListField_none hb, dictGet_dictSet_self]
        rfl
      | some v =>
        cases hv : v.isList with
        | true =>
          match v, hv with
          | .list P, _ =>
            refine ⟨P, grs.map GeneratedGroup.toYVal, ?_, group_yval_names hn2⟩
            rw [extendListField_list hb, dictGet_dictSet_self]
        | false =>
          refine ⟨[], grs.map GeneratedGroup.toYVal, ?_, group_yval_names hn2⟩
          rw [extendListField_nonlist hb hv, dictGet_dictSet_self]
          rfl
  · intro K1 K2 hperm hall hinj
    exact sortKeysFn_perm_invariant_int hperm hall hinj
  · intro K1 K2 hperm hall
    exact sortKeysFn_perm_invariant_lex hperm hall

/-- Witness for C4 (amended): two permuted key lists with distinct integer
values sort identically. -/
theorem claim_C4_witness : sortKeysFn ["2", "10"] = sortKeysFn ["10", "2"] :=
  (claim_C4_amended [] [] []).2.2.2.1 ["2", "10"] ["10", "2"]
    (List.Perm.swap _ _ []) (by decide) (by decide)

/-- C6: after a successful merge (base config with list-valued proxies and
proxy-groups fields), the result's listeners field is exactly the ordered
generated listeners (base listeners discarded), its proxies field is the
base proxies followed by the generated proxies, its proxy-groups field is
the base proxy-groups followed by the generated relay groups, and every
other field of the base config is present unchanged. -/
theorem claim_C6 (m : List (String × MapEntry)) (pl : List ProxyRecord)
    (b : List (String × YVal)) (P G : List YVal) (cfg : List (String × YVal))
    (hP : dictGet "proxies" b = some (.list P))
    (hG : dictGet "proxy-groups" b = some (.list G))
    (hcfg : process_data m pl b = .ok cfg) :
    ∃ gs ipMap ls grs,
      genProxies pl = .ok (gs, ipMap) ∧
      processKeys ipMap (mappingEntriesInOrder m) = .ok (ls, grs) ∧
      dictGet "listeners" cfg = some (.list (ls.map GeneratedListener.toYVal)) ∧
      dictGet "proxies" cfg = some (.list (P ++ gs.map GeneratedProxy.toYVal)) ∧
      dictGet "proxy-groups" cfg = some (.list (G ++ grs.map GeneratedGroup.toYVal)) ∧
      (∀ k, k ≠ "proxies" → k ≠ "proxy-groups" → k ≠ "listeners" →
          dictGet k cfg = dictGet k b) := by
  obtain ⟨gs, ipMap, ls, grs, hg, hk, rfl⟩ := process_data_ok_shape hcfg
  have hG2 : dictGet "proxy-groups" (dictSet "listeners"
      (YVal.list (ls.map GeneratedListener.toYVal))
      (extendListField "proxies" (gs.map GeneratedProxy.toYVal) b)) = some (.list G) := by
    rw [dictGet_dictSet_ne (by decide) _ _, dictGet_extendListField_ne (by decide) _ _]
    exact hG
  refine ⟨gs, ipMap, ls, grs, hg, hk, ?_, ?_, ?_, ?_⟩
  · rw [dictGet_extendListField_ne (by decide) _ _, dictGet_dictSet_self]
  · rw [dictGet_extendListField_ne (by decide) _ _, dictGet_dictSet_ne (by decide) _ _,
      extendListField_list hP, dictGet_dictSet_self]
  · rw [extendListField_list hG2, dictGet_dictSet_self]
  · intro k hk1 hk2 hk3
    rw [dictGet_extendListField_ne (Ne.symm hk2) _ _, dictGet_dictSet_ne (Ne.symm hk3) _ _,
      dictGet_extendListField_ne (Ne.symm hk1) _ _]

/-- Witness for C6: the end-to-end example of the specification; the
passthrough field "mode" is unchanged by the merge. -/
theorem claim_C6_witness :
    dictGet "mode"
      [("mode", YVal.str "rule"),
       ("proxies", .list [.dict [("name", .str "socks_out_01"), ("type", .str "socks5"),
          ("server", .str "10.0.0.5"), ("port", .int 1080), ("username", .str "alice"),
          ("password", .str "secret"), ("tls", .bool false),
          ("skip-cert-verify", .bool true), ("udp", .bool true)]]),
       ("proxy-groups", .list [.dict [("name", .str "socks_relay_1"),
          ("type", .str "relay"),
          ("proxies", .list [.str "Switch-Proxy", .str "socks_out_01"])]]),
       ("listeners", .list [.dict [("name", .str "socks_1"), ("type", .str "mixed"),
          ("port", .int 1081), ("proxy", .str "socks_relay_1")]])] =
    dictGet "mode"
      [("mode", YVal.str "rule"), ("proxies", .list []), ("proxy-groups", .list []),
       ("listeners", .list [.str "old"])] := by
  obtain ⟨gs, ipMap, ls, grs, h1, h2, h3, h4, h5, h6⟩ :=
    claim_C6 [("1", { socks_local := some "0.0.0.0:1081", socks_remote := some "10.0.0.5" })]
      [⟨"10.0.0.5", "1080", "alice", "secret", 1⟩]
      [("mode", YVal.str "rule"), ("proxies", .list []), ("proxy-groups", .list []),
       ("listeners", .list [.str "old"])]
      [] [] _ rfl rfl rfl
  exact h6 "mode" (by decide) (by decide) (by decide)

/-! ### Mutation-of-base lemmas -/

theorem extendIfList_list {k : String} {d : List (String × YVal)} {P : List YVal}
    (h : dictGet k d = some (.list P)) (new : List YVal) :
    extendIfList k new d = dictSet k (.list (P ++ new)) d := by
  unfold extendIfList
  rw [h]

theorem extendIfList_nonlist {k : String} {d : List (String × YVal)} {v : YVal}
    (h : dictGet k d = some v) (hv : v.isList = false) (new : List YVal) :
    extendIfList k new d = d := by
  unfold extendIfList
  rw [h]
  cases v <;> first | rfl | exact absurd hv (by simp [YVal.isList])

theorem extendIfList_none {k : String} {d : List (String × YVal)}
    (h : dictGet k d = none) (new : List YVal) : extendIfList k new d = d := by
  unfold extendIfList
  rw [h]

theorem dictGet_extendIfList_ne {k k' : String} (h : k ≠ k') (new : List YVal)
    (d : List (String × YVal)) :
    dictGet k' (extendIfList k new d) = dictGet k' d := by
  unfold extendIfList
  split
  · exact dictGet_dictSet_ne h _ d
  · rfl

theorem base_after_shape (m : List (String × MapEntry)) (pl : List ProxyRecord)
    (b : List (String × YVal)) :
    (∃ e, genProxies pl = .error e ∧ process_data_base_after m pl b = b) ∨
    (∃ gs ipMap e, genProxies pl = .ok (gs, ipMap) ∧
        processKeys ipMap (mappingEntriesInOrder m) = .error e ∧
        process_data_base_after m pl b =
          extendIfList "proxies" (gs.map GeneratedProxy.toYVal) b) ∨
    (∃ gs ipMap ls grs, genProxies pl = .ok (gs, ipMap) ∧
        processKeys ipMap (mappingEntriesInOrder m) = .ok (ls, grs) ∧
        process_data_base_after m pl b =
          extendIfList "proxy-groups" (grs.map GeneratedGroup.toYVal)
            (extendIfList "proxies" (gs.map GeneratedProxy.toYVal) b)) := by
  unfold process_data_base_after
  cases hg : genProxies pl with
  | error e => exact Or.inl ⟨e, rfl, by simp only [hg]⟩
  | ok pr =>
    obtain ⟨gs, ipMap⟩ := pr
    cases hk : processKeys ipMap (mappingEntriesInOrder m) with
    | error e =>
      exact Or.inr (Or.inl ⟨gs, ipMap, e, rfl, hk, by simp only [hg, hk]⟩)
    | ok pr2 =>
      obtain ⟨ls, grs⟩ := pr2
      exact Or.inr (Or.inr ⟨gs, ipMap, ls, grs, rfl, hk, by simp only [hg, hk]⟩)

/-- Counterexample to C7 as stated: a concrete run that aborts at step 4
(invalid socks_local) but still leaves the base config modified — its
proxies list has already been extended in place, because the merge only
takes a shallow copy of the base dictionary. -/
theorem claim_C7_cex :
    process_data [("1", { socks_local := none, socks_remote := some "10.0.0.5" })]
        [⟨"10.0.0.5", "1080", "a", "s", 1⟩] [("proxies", YVal.list [])] =
      .error (.localInvalid "1" none) ∧
    process_data_base_after [("1", { socks_local := none, socks_remote := some "10.0.0.5" })]
        [⟨"10.0.0.5", "1080", "a", "s", 1⟩] [("proxies", YVal.list [])] ≠
      [("proxies", YVal.list [])] := by
  constructor
  · rfl
  · intro h
    have hlen := congrArg (fun d => match dictGet "proxies" d with
      | some (.list l) => some l.length
      | _ => none) h
    exact absurd hlen (by decide)

/-- C7 (amended): the mapping table and proxy list are never modified, and
a step-1 (port) abort leaves the base config untouched; but because the
merge takes only a shallow copy of the base dictionary, whenever step 1
succeeds and the base config's proxies field holds a list, that very list
is extended in place with the generated proxies (this is observable by the
caller even when the merge later aborts at steps 4-6); likewise on overall
success the base config's proxy-groups list is extended in place with the
generated relay groups.  All other fields of the base config, and
non-list proxies/proxy-groups values, are left unchanged; no partial
result object is returned on any abort. -/
theorem claim_C7_amended (m : List (String × MapEntry)) (pl : List ProxyRecord)
    (b : List (String × YVal)) :
    (∀ e, process_data m pl b = .error e → e.isPortFormat = true →
        process_data_base_after m pl b = b) ∧
    (∀ k, k ≠ "proxies" → k ≠ "proxy-groups" →
        dictGet k (process_data_base_after m pl b) = dictGet k b) ∧
    (∀ gs ipMap P, genProxies pl = .ok (gs, ipMap) →
        dictGet "proxies" b = some (.list P) →
        dictGet "proxies" (process_data_base_after m pl b) =
          some (.list (P ++ gs.map GeneratedProxy.toYVal))) ∧
    (∀ v, dictGet "proxies" b = some v → v.isList = false →
        dictGet "proxies" (process_data_base_after m pl b) = some v) ∧
    (∀ e, process_data m pl b = .error e →
        dictGet "proxy-groups" (process_data_base_after m pl b) =
          dictGet "proxy-groups" b) ∧
    (∀ cfg G, process_data m pl b = .ok cfg →
        dictGet "proxy-groups" b = some (.list G) →
        ∃ gs ipMap ls grs, genProxies pl = .ok (gs, ipMap) ∧
          processKeys ipMap (mappingEntriesInOrder m) = .ok (ls, grs) ∧
          dictGet "proxy-groups" (process_data_base_after m pl b) =
            some (.list (G ++ grs.map GeneratedGroup.toYVal))) := by
  refine ⟨?_, ?_, ?_, ?_, ?_, ?_⟩
  · intro e herr hport
    rcases process_data_error_shape herr with hg | ⟨gs, ipMap, hg, hk⟩
    · rcases base_after_shape m pl b with ⟨e', hg', hb⟩ | ⟨_, _, _, hg', _, _⟩ | ⟨_, _, _, _, hg', _, _⟩
      · exact hb
      · rw [hg] at hg'; exact Except.noConfusion hg'
      · rw [hg] at hg'; exact Except.noConfusion hg'
    · exact absurd hport (by rw [processKeys_error_not_port _ _ hk]; exact Bool.false_ne_true)
  · intro k h1 h2
    rcases base_after_shape m pl b with ⟨e, hg, hb⟩ | ⟨gs, ipMap, e, hg, hk, hb⟩ |
      ⟨gs, ipMap, ls, grs, hg, hk, hb⟩
    · rw [hb]
    · rw [hb, dictGet_extendIfList_ne (Ne.symm h1) _ _]
    · rw [hb, dictGet_extendIfList_ne (Ne.symm h2) _ _,
        dictGet_extendIfList_ne (Ne.symm h1) _ _]
  · intro gs ipMap P hg hP
    rcases base_after_shape m pl b with ⟨e, hg', hb⟩ | ⟨gs', ipMap', e, hg', hk, hb⟩ |
      ⟨gs', ipMap', ls, grs, hg', hk, hb⟩
    · rw [hg] at hg'; exact Except.noConfusion hg'
    · rw [hg] at hg'
      injection hg' with hpr
      injection hpr with hgs hipm
      rw [hb, ← hgs, extendIfList_list hP, dictGet_dictSet_self]
    · rw [hg] at hg'
      injection hg' with hpr
      injection hpr with hgs hipm
      rw [hb, ← hgs, dictGet_extendIfList_ne (by decide) _ _,
        extendIfList_list hP, dictGet_dictSet_self]
  · intro v hv hnl
    rcases base_after_shape m pl b with ⟨e, hg, hb⟩ | ⟨gs, ipMap, e, hg, hk, hb⟩ |
      ⟨gs, ipMap, ls, grs, hg, hk, hb⟩
    · rw [hb]; exact hv
    · rw [hb, extendIfList_nonlist hv hnl]; exact hv
    · rw [hb, dictGet_extendIfList_ne (by decide) _ _, extendIfList_nonlist hv hnl]
      exact hv
  · intro e herr
    rcases base_after_shape m pl b with ⟨e', hg, hb⟩ | ⟨gs, ipMap, e', hg, hk, hb⟩ |
      ⟨gs, ipMap, ls, grs, hg, hk, hb⟩
    · rw [hb]
    · rw [hb, dictGet_extendIfList_ne (by decide) _ _]
    · rw [process_data_ok_of_parts hg hk] at herr
      exact Except.noConfusion herr
  · intro cfg G hok hG
    rcases base_after_shape m pl b with ⟨e, hg, hb⟩ | ⟨gs, ipMap, e, hg, hk, hb⟩ |
      ⟨gs, ipMap, ls, grs, hg, hk, hb⟩
    · rw [process_data_error_of_gen hg] at hok; exact Except.noConfusion hok
    · rw [process_data_error_of_keys hg hk] at hok; exact Except.noConfusion hok
    · refine ⟨gs, ipMap, ls, grs, hg, hk, ?_⟩
      have hG2 : dictGet "proxy-groups"
          (extendIfList "proxies" (gs.map GeneratedProxy.toYVal) b) = some (.list G) := by
        rw [dictGet_extendIfList_ne (by decide) _ _]
        exact hG
      rw [hb, extendIfList_list hG2, dictGet_dictSet_self]

/-- Witness for C7 (amended): for the counterexample input the base
config's proxies list is observed extended with the generated proxy. -/
theorem claim_C7_witness :
    dictGet "proxies" (process_data_base_after
        [("1", { socks_local := none, socks_remote := some "10.0.0.5" })]
        [⟨"10.0.0.5", "1080", "a", "s", 1⟩] [("proxies", YVal.list [])]) =
      some (.list ([] ++ [GeneratedProxy.toYVal
        ⟨"socks_out_01", "socks5", "10.0.0.5", 1080, "a", "s", false, true, true⟩])) :=
  (claim_C7_amended [("1", { socks_local := none, socks_remote := some "10.0.0.5" })]
      [⟨"10.0.0.5", "1080", "a", "s", 1⟩] [("proxies", YVal.list [])]).2.2.1
    [⟨"socks_out_01", "socks5", "10.0.0.5", 1080, "a", "s", false, true, true⟩]
    [("10.0.0.5", "socks_out_01")] [] rfl rfl

/-- C9: the merge is deterministic — two runs on equal mapping tables,
equal proxy lists and equal base configs produce identical results, in
particular identical proxies, proxy-groups and listeners sections; the
embedded merge is a pure function of its three arguments, with no
dependence on time, randomness or run count. -/
theorem claim_C9 (m1 m2 : List (String × MapEntry)) (pl1 pl2 : List ProxyRecord)
    (b1 b2 : List (String × YVal)) (hm : m1 = m2) (hp : pl1 = pl2) (hb : b1 = b2) :
    process_data m1 pl1 b1 = process_data m2 pl2 b2 ∧
    (process_data m1 pl1 b1).toOption.map (dictGet "proxies") =
      (process_data m2 pl2 b2).toOption.map (dictGet "proxies") ∧
    (process_data m1 pl1 b1).toOption.map (dictGet "proxy-groups") =
      (process_data m2 pl2 b2).toOption.map (dictGet "proxy-groups") ∧
    (process_data m1 pl1 b1).toOption.map (dictGet "listeners") =
      (process_data m2 pl2 b2).toOption.map (dictGet "listeners") := by
  subst hm
  subst hp
  subst hb
  exact ⟨rfl, rfl, rfl, rfl⟩

/-- Witness for C9: two runs of the end-to-end example agree. -/
theorem claim_C9_witness :
    process_data [("1", { socks_local := some "0.0.0.0:1081", socks_remote := some "10.0.0.5" })]
        [⟨"10.0.0.5", "1080", "alice", "secret", 1⟩] [] =
      process_data [("1", { socks_local := some "0.0.0.0:1081", socks_remote := some "10.0.0.5" })]
        [⟨"10.0.0.5", "1080", "alice", "secret", 1⟩] [] :=
  (claim_C9 _ _ _ _ _ _ rfl rfl rfl).1

/-- Whether the merge fails, and with which error, does not depend on the
base config at all. -/
theorem process_data_error_iff_base (m : List (String × MapEntry)) (pl : List ProxyRecord)
    (b b' : List (String × YVal)) (e : MergeError) :
    process_data m pl b = .error e ↔ process_data m pl b' = .error e := by
  constructor <;> intro h <;>
    (rcases process_data_error_shape h with hg | ⟨gs, ipMap, hg, hk⟩
     · exact process_data_error_of_gen hg
     · exact process_data_error_of_keys hg hk)

/-- C10 (implicit): a base config whose proxies or proxy-groups field is
present but not a list does not make the merge fail (failure does not
depend on the base config at all); the non-list value is discarded and
replaced by a fresh list, so on success the generated entries are that
field's entire contents. -/
theorem claim_C10 (m : List (String × MapEntry)) (pl : List ProxyRecord)
    (b : List (String × YVal)) :
    (∀ e, process_data m pl b = .error e ↔ process_data m pl [] = .error e) ∧
    (∀ v cfg, dictGet "proxies" b = some v → v.isList = false →
        process_data m pl b = .ok cfg →
        ∃ gs ipMap, genProxies pl = .ok (gs, ipMap) ∧
          dictGet "proxies" cfg = some (.list (gs.map GeneratedProxy.toYVal))) ∧
    (∀ v cfg, dictGet "proxy-groups" b = some v → v.isList = false →
        process_data m pl b = .ok cfg →
        ∃ gs ipMap ls grs, genProxies pl = .ok (gs, ipMap) ∧
          processKeys ipMap (mappingEntriesInOrder m) = .ok (ls, grs) ∧
          dictGet "proxy-groups" cfg = some (.list (grs.map GeneratedGroup.toYVal))) := by
  refine ⟨fun e => process_data_error_iff_base m pl b [] e, ?_, ?_⟩
  · intro v cfg hv hnl hok
    obtain ⟨gs, ipMap, ls, grs, hg, hk, rfl⟩ := process_data_ok_shape hok
    refine ⟨gs, ipMap, hg, ?_⟩
    rw [dictGet_extendListField_ne (by decide) _ _, dictGet_dictSet_ne (by decide) _ _,
      extendListField_nonlist hv hnl, dictGet_dictSet_self]
  · intro v cfg hv hnl hok
    obtain ⟨gs, ipMap, ls, grs, hg, hk, rfl⟩ := process_data_ok_shape hok
    refine ⟨gs, ipMap, ls, grs, hg, hk, ?_⟩
    have hv2 : dictGet "proxy-groups" (dictSet "listeners"
        (YVal.list (ls.map GeneratedListener.toYVal))
        (extendListField "proxies" (gs.map GeneratedProxy.toYVal) b)) = some v := by
      rw [dictGet_dictSet_ne (by decide) _ _, dictGet_extendListField_ne (by decide) _ _]
      exact hv
    rw [extendListField_nonlist hv2 hnl, dictGet_dictSet_self]

/-- Witness for C10: a base config with `proxies: 5` (a number) still
merges; the generated proxy becomes the entire proxies list. -/
theorem claim_C10_witness :
    ∃ gs ipMap, genProxies [⟨"10.0.0.5", "1080", "a", "s", 1⟩] = .ok (gs, ipMap) ∧
      dictGet "proxies"
        [("proxies", YVal.list [.dict [("name", .str "socks_out_01"),
            ("type", .str "socks5"), ("server", .str "10.0.0.5"), ("port", .int 1080),
            ("username", .str "a"), ("password", .str "s"), ("tls", .bool false),
            ("skip-cert-verify", .bool true), ("udp", .bool true)]]),
         ("listeners", .list []), ("proxy-groups", .list [])] =
        some (.list (gs.map GeneratedProxy.toYVal)) :=
  (claim_C10 [] [⟨"10.0.0.5", "1080", "a", "s", 1⟩] [("proxies", YVal.int 5)]).2.1
    (.int 5) _ rfl rfl rfl

end ClashGen
